import Mathlib

/-!
# Verification of the Chandy-Lamport snapshot server (`chandy-lamport/server.go`)

Shallow embedding of the per-server protocol code. Go maps are embedded as
association lists (`List (κ × α)`), a Go `map[T]bool` used as a set as a
duplicate-free `List`; the external simulator's side effects (event logging,
publishing a finished record, `NotifySnapshotComplete`) are reified as an
`Output` trace. `log.Fatalf` terminations are reified as error constructors
carrying the server state at the instant of the failure. Event receive times
(`sim.GetReceiveTime`) are opaque to the protocol and omitted from queue
entries.
-/

namespace ChandyLamport

/-- The two message kinds exchanged by servers: `TokenMessage` and
`MarkerMessage` from the Go sources. -/
inductive Message where
  | marker (snapshotId : Int)
  | token (numTokens : Int)
deriving DecidableEq

/-- `SnapshotMessage`: one application message captured in a snapshot record
(fields `src`, `dest`, `message` as in the Go struct). -/
structure SnapshotMessage where
  src : String
  dest : String
  message : Message
deriving DecidableEq

/-- `SnapshotState`: one server's record for one snapshot id (`id`, the
`tokens` map holding this server's local count at its cut, and the captured
`messages`). -/
structure SnapshotState where
  id : Int
  tokens : List (String × Int)
  messages : List SnapshotMessage
deriving DecidableEq

/-- Association-list lookup: the read `m[k]` on a Go map (`none` = absent,
which Go reads as the zero value). -/
def alookup {α : Type} (k : String) : List (String × α) → Option α
  | [] => none
  | (k', v) :: rest => if k = k' then some v else alookup k rest

/-- Association-list lookup with `Int` keys (snapshot ids). -/
def ilookup {α : Type} (k : Int) : List (Int × α) → Option α
  | [] => none
  | (k', v) :: rest => if k = k' then some v else ilookup k rest

/-- Go map assignment `m[k] = v`: overwrite in place, or append a fresh key. -/
def aset {α : Type} (k : String) (v : α) : List (String × α) → List (String × α)
  | [] => [(k, v)]
  | (k', v') :: rest => if k = k' then (k, v) :: rest else (k', v') :: aset k v rest

/-- Go map assignment with `Int` keys. -/
def iset {α : Type} (k : Int) (v : α) : List (Int × α) → List (Int × α)
  | [] => [(k, v)]
  | (k', v') :: rest => if k = k' then (k, v) :: rest else (k', v') :: iset k v rest

/-- In-place update of an existing entry (Go: mutation through the map's
pointer/inner-map value); absent keys are untouched. -/
def amodify {α : Type} (k : String) (f : α → α) : List (String × α) → List (String × α)
  | [] => []
  | (k', v) :: rest => if k = k' then (k', f v) :: rest else (k', v) :: amodify k f rest

/-- In-place update with `Int` keys. -/
def imodify {α : Type} (k : Int) (f : α → α) : List (Int × α) → List (Int × α)
  | [] => []
  | (k', v) :: rest => if k = k' then (k', f v) :: rest else (k', v) :: imodify k f rest

/-- Conditional insertion, the effect of `if !m[x] { m[x] = true }` on a Go
`map[T]bool` viewed as a set. -/
def addIfAbsent {α : Type} [DecidableEq α] (x : α) (xs : List α) : List α :=
  if x ∈ xs then xs else xs ++ [x]

/-- `Server`: id, token count, outbound link queues (key = destination id,
value = the link's pending event queue), inbound link sources, and the three
snapshot-bookkeeping maps `receivedSnapshot` (as the set of started ids),
`inReceivedMarker` (id ↦ set of sources whose marker arrived) and `snapshot`
(id ↦ record). -/
structure Server where
  id : String
  tokens : Int
  outboundLinks : List (String × List Message)
  inboundLinks : List String
  receivedSnapshot : List Int
  inReceivedMarker : List (Int × List String)
  snapshot : List (Int × SnapshotState)
deriving DecidableEq

/-- Observable side effects routed through the simulator: `RecordEvent` of a
sent message, publishing a finished record to `sim.chanMap`, and
`NotifySnapshotComplete`. -/
inductive Output where
  | sent (src dest : String) (message : Message)
  | publish (snapshotId : Int) (record : Option SnapshotState)
  | complete (serverId : String) (snapshotId : Int)
deriving DecidableEq

/-- Modelled from the spec: `getSortedKeys` (declared in a repository file not
under `src/`) returns a map's keys "in a deterministic order, e.g. ascending
peer id"; embedded as an insertion sort of the association list's keys. -/
def getSortedKeys {α : Type} (m : List (String × α)) : List String :=
  List.insertionSort (· ≤ ·) (m.map Prod.fst)

/-- `AddOutboundLink`: refuse self-links (Go compares object identity; servers
are identified by id here), otherwise install a fresh link with an empty queue
in the source's outbound map and register the source in the destination's
inbound map. Returns the updated (source, destination) pair. -/
def AddOutboundLink (server dest : Server) : Server × Server :=
  if server.id = dest.id then (server, dest)
  else
    ({ server with outboundLinks := aset dest.id [] server.outboundLinks },
     { dest with inboundLinks := addIfAbsent server.id dest.inboundLinks })

/-- One iteration of the `SendToNeighbors` loop: push `message` onto the
outbound link to `k`. -/
def pushMessage (message : Message) (s : Server) (k : String) : Server :=
  { s with outboundLinks := amodify k (fun q => q ++ [message]) s.outboundLinks }

/-- `SendToNeighbors`: push `message` onto every outbound link's queue,
iterating destinations in sorted-key order; the returned trace records the
logged `SentMessageEvent`s in transmission order. -/
def SendToNeighbors (server : Server) (message : Message) : Server × List Output :=
  let keys := getSortedKeys server.outboundLinks
  (keys.foldl (pushMessage message) server,
   keys.map (fun k => Output.sent server.id k message))

/-- Result of `SendTokens`: either the updated server, or one of the two
`log.Fatalf` exits, each carrying the server state at the instant the fatal
fired. -/
inductive SendResult where
  | ok (server : Server)
  | fatalInsufficient (server : Server)
  | fatalUnknownDest (server : Server)
deriving DecidableEq

/-- `SendTokens`: fatal if more tokens are requested than held; otherwise log
the send event, decrement `Tokens`, then look up the destination link (fatal
if unknown) and enqueue the token message. -/
def SendTokens (server : Server) (numTokens : Int) (dest : String) :
    SendResult × List Output :=
  if server.tokens < numTokens then (.fatalInsufficient server, [])
  else
    let outs := [Output.sent server.id dest (.token numTokens)]
    let server := { server with tokens := server.tokens - numTokens }
    match alookup dest server.outboundLinks with
    | none => (.fatalUnknownDest server, outs)
    | some _ =>
        (.ok { server with
                 outboundLinks :=
                   amodify dest (fun q => q ++ [Message.token numTokens]) server.outboundLinks },
         outs)

/-- `StartSnapshot`: create a fresh (empty) marker-tracking set and a fresh
record capturing the current token count, mark the snapshot started, and send
a marker to all neighbors. -/
def StartSnapshot (server : Server) (snapshotId : Int) : Server × List Output :=
  let server :=
    { server with
        inReceivedMarker := iset snapshotId [] server.inReceivedMarker
        receivedSnapshot := addIfAbsent snapshotId server.receivedSnapshot
        snapshot := iset snapshotId
          { id := snapshotId
            tokens := [(server.id, server.tokens)]
            messages := [] } server.snapshot }
  SendToNeighbors server (.marker snapshotId)

/-- The set of sources whose marker for `snapshotId` this server has seen
(Go: the inner map `inReceivedMarker[snapshotId]`, reading an absent id as
the empty map). -/
def seenOf (server : Server) (snapshotId : Int) : List String :=
  (ilookup snapshotId server.inReceivedMarker).getD []

/-- One iteration of the token-capture loop in `HandlePacket`: if snapshot
`sid` is started but no marker has yet arrived from `src`, append the message
to `sid`'s record. -/
def captureStep (src : String) (message : Message) (s : Server) (sid : Int) : Server :=
  if src ∈ (ilookup sid s.inReceivedMarker).getD [] then s
  else
    { s with
        snapshot := imodify sid
          (fun st =>
            { st with
                messages := st.messages ++ [{ src := src, dest := s.id, message := message }] })
          s.snapshot }

/-- The `MarkerMessage` case of `HandlePacket`: start the snapshot on first
encounter, record the marker's source, and if markers have arrived from every
inbound link, publish the record and notify completion. -/
def handleMarker (server : Server) (src : String) (snapshotId : Int) :
    Server × List Output :=
  let st :=
    if snapshotId ∈ server.receivedSnapshot then (server, [])
    else StartSnapshot server snapshotId
  let server :=
    { st.1 with
        inReceivedMarker := imodify snapshotId (addIfAbsent src) st.1.inReceivedMarker }
  if (seenOf server snapshotId).length = server.inboundLinks.length then
    (server,
     st.2 ++ [Output.publish snapshotId (ilookup snapshotId server.snapshot),
              Output.complete server.id snapshotId])
  else (server, st.2)

/-- The `TokenMessage` case of `HandlePacket`: capture the message for every
started-but-not-yet-marked snapshot, then apply the token transfer. -/
def handleToken (server : Server) (src : String) (numTokens : Int) :
    Server × List Output :=
  let server := server.receivedSnapshot.foldl (captureStep src (.token numTokens)) server
  ({ server with tokens := server.tokens + numTokens }, [])

/-- `HandlePacket`: dispatch on the message kind, as the Go type switch does. -/
def HandlePacket (server : Server) (src : String) (message : Message) :
    Server × List Output :=
  match message with
  | .marker snapshotId => handleMarker server src snapshotId
  | .token numTokens => handleToken server src numTokens

/-! ## Run semantics for a single server

The simulator delivers inbound events to a server one at a time; a run is the
list of `(source, message)` packets in delivery order. -/

/-- Deliver a list of packets to one server in order, collecting the emitted
output trace. -/
def runServer (p : Server) : List (String × Message) → Server × List Output
  | [] => (p, [])
  | pkt :: rest =>
      let r := HandlePacket p pkt.1 pkt.2
      let rr := runServer r.1 rest
      (rr.1, r.2 ++ rr.2)

/-- Recognize the completion notification for `(pid, s)` in an output trace. -/
def isCompleteFor (pid : String) (s : Int) (o : Output) : Bool :=
  match o with
  | .complete i t => decide (i = pid) && decide (t = s)
  | _ => false

/-- The sources of the markers for snapshot `s` occurring in a packet list,
in delivery order. -/
def markerSrcs (s : Int) (pkts : List (String × Message)) : List String :=
  (pkts.filter (fun pkt => decide (pkt.2 = Message.marker s))).map Prod.fst

/-! ## System semantics

A system is the list of all servers; channel queues live in the sending
server's `outboundLinks`. The external scheduler picks one enabled event at a
time: deliver the head of a nonempty channel queue to its destination's
`HandlePacket`, let a server send tokens (only non-fatal sends keep the
program alive), or trigger `StartSnapshot` externally on a server that has
not yet started that id. -/

/-- Replace the server with `s'.id` by `s'` (servers are keyed by id). -/
def updServer (sys : List Server) (s' : Server) : List Server :=
  sys.map (fun q => if q.id = s'.id then s' else q)

/-- One scheduler step of the closed system (no external resource injection:
tokens only move between servers and channels). -/
inductive Step : List Server → List Server → Prop where
  | deliver (sys : List Server) (a b : Server) (msg : Message) (q : List Message) :
      a ∈ sys → b ∈ sys →
      alookup b.id a.outboundLinks = some (msg :: q) →
      Step sys (updServer (updServer sys { a with outboundLinks := aset b.id q a.outboundLinks })
                 (HandlePacket b a.id msg).1)
  | send (sys : List Server) (a s' : Server) (n : Int) (dest : String) :
      a ∈ sys → (SendTokens a n dest).1 = SendResult.ok s' →
      Step sys (updServer sys s')
  | start (sys : List Server) (a : Server) (sid : Int) :
      a ∈ sys → sid ∉ a.receivedSnapshot →
      Step sys (updServer sys (StartSnapshot a sid).1)

/-- Reachability along scheduler steps. -/
def Reaches : List Server → List Server → Prop := Relation.ReflTransGen Step

/-- Token payload of a message (markers carry none). -/
def payload : Message → Int
  | .marker _ => 0
  | .token n => n

/-- Total token payload queued in a channel. -/
def tokSum (q : List Message) : Int := (q.map payload).sum

/-- Is this message the marker for snapshot `s`? -/
def isMarkerFor (s : Int) (m : Message) : Bool :=
  match m with
  | .marker t => decide (t = s)
  | .token _ => false

/-- Number of markers for `s` in a queue. -/
def markerCount (s : Int) (q : List Message) : Nat := q.countP (isMarkerFor s)

/-- The pre-cut token payload of a channel queue for snapshot `s`: tokens in
front of `s`'s marker; if no marker is queued, the whole queue when the sender
has not yet cut (`startedA = false`), nothing once it has (its marker already
crossed). -/
def preCut (s : Int) (startedA : Bool) (q : List Message) : Int :=
  if q.any (isMarkerFor s) then tokSum (q.takeWhile (fun m => ! isMarkerFor s m))
  else if startedA then 0 else tokSum q

/-- Total token payload of a record's captured messages. -/
def msgSum (l : List SnapshotMessage) : Int := (l.map (fun sm => payload sm.message)).sum

/-- What server `p`'s record for `s` accounts for: its recorded local count
plus its captured in-flight tokens (0 if there is no record). -/
def recContrib (s : Int) (p : Server) : Int :=
  match ilookup s p.snapshot with
  | none => 0
  | some st => (alookup p.id st.tokens).getD 0 + msgSum st.messages

/-- Server `p`'s contribution to the conserved total for snapshot `s`: its
record once it has cut, its live token count before. -/
def contrib (s : Int) (p : Server) : Int :=
  if s ∈ p.receivedSnapshot then recContrib s p else p.tokens

/-- Pre-cut in-flight tokens on all of `p`'s outbound channels. -/
def chanSum (s : Int) (p : Server) : Int :=
  (p.outboundLinks.map (fun kv => preCut s (decide (s ∈ p.receivedSnapshot)) kv.2)).sum

/-- The conserved quantity for snapshot `s` over the whole system. -/
def accounted (s : Int) (sys : List Server) : Int :=
  (sys.map (fun p => contrib s p + chanSum s p)).sum

/-- All tokens queued on `p`'s outbound channels. -/
def queueSum (p : Server) : Int :=
  (p.outboundLinks.map (fun kv => tokSum kv.2)).sum

/-- Total resource count in the system: tokens held by servers plus tokens in
flight on channels. -/
def totalTokens (sys : List Server) : Int :=
  (sys.map (fun p => p.tokens + queueSum p)).sum

/-- Well-formed closed topology: distinct server ids, duplicate-free link
maps, no self-links, channels end at servers of the system, the inbound lists
mirror the outbound maps, and started-id sets are duplicate-free. -/
structure WF (sys : List Server) : Prop where
  nodupIds : (sys.map Server.id).Nodup
  outKeysNodup : ∀ p ∈ sys, (p.outboundLinks.map Prod.fst).Nodup
  noSelf : ∀ p ∈ sys, p.id ∉ p.outboundLinks.map Prod.fst
  closed : ∀ p ∈ sys, ∀ k ∈ p.outboundLinks.map Prod.fst, ∃ t ∈ sys, t.id = k
  inOut : ∀ p ∈ sys, ∀ t ∈ sys, (p.id ∈ t.inboundLinks ↔ t.id ∈ p.outboundLinks.map Prod.fst)
  recvNodup : ∀ p ∈ sys, p.receivedSnapshot.Nodup

/-- Protocol invariant for one snapshot id `s`. `chan` is the cut invariant:
once a sender has started `s`, its marker is either still queued on each of
its channels or already registered at the destination, exactly one of the
two; before it starts, neither. -/
structure Inv (s : Int) (sys : List Server) : Prop where
  started_rec : ∀ p ∈ sys, (s ∈ p.receivedSnapshot ↔ (ilookup s p.snapshot).isSome)
  started_mk : ∀ p ∈ sys, (s ∈ p.receivedSnapshot ↔ (ilookup s p.inReceivedMarker).isSome)
  seen_nodup : ∀ p ∈ sys, (seenOf p s).Nodup
  seen_sub : ∀ p ∈ sys, ∀ x ∈ seenOf p s, x ∈ p.inboundLinks
  chan : ∀ a ∈ sys, ∀ b ∈ sys, ∀ q, alookup b.id a.outboundLinks = some q →
    (s ∈ a.receivedSnapshot →
       markerCount s q + (if a.id ∈ seenOf b s then 1 else 0) = 1) ∧
    (s ∉ a.receivedSnapshot → markerCount s q = 0 ∧ a.id ∉ seenOf b s)

/-- A state in which no process has begun snapshot `s` and no marker for `s`
is in flight. -/
def CleanFor (s : Int) (sys : List Server) : Prop :=
  ∀ p ∈ sys, s ∉ p.receivedSnapshot ∧ ilookup s p.snapshot = none ∧
    ilookup s p.inReceivedMarker = none ∧
    ∀ kv ∈ p.outboundLinks, markerCount s kv.2 = 0

/-- The messages captured so far in `p`'s record for snapshot `s` (empty when
there is no record). -/
def capturedFor (p : Server) (s : Int) : List SnapshotMessage :=
  ((ilookup s p.snapshot).map SnapshotState.messages).getD []

/-! ## A concrete two-server ring used to exercise the system semantics -/

/-- Server `a` of a concrete two-server ring: 5 tokens, one channel to `b`. -/
def serverWA : Server :=
  { id := "a", tokens := 5, outboundLinks := [("b", [])], inboundLinks := ["b"],
    receivedSnapshot := [], inReceivedMarker := [], snapshot := [] }

/-- Server `b` of the ring: 3 tokens, one channel to `a`. -/
def serverWB : Server :=
  { id := "b", tokens := 3, outboundLinks := [("a", [])], inboundLinks := ["a"],
    receivedSnapshot := [], inReceivedMarker := [], snapshot := [] }

/-- Initial ring state. -/
def sysW0 : List Server := [serverWA, serverWB]

/-- Server `a` after it starts snapshot 0 externally. -/
def serverWA1 : Server := (StartSnapshot serverWA 0).1

/-- Ring state after `a` starts snapshot 0. -/
def sysW1 : List Server := updServer sysW0 serverWA1

/-- Server `a` after its queued marker to `b` leaves the channel. -/
def serverWA2 : Server :=
  { serverWA1 with outboundLinks := aset "b" [] serverWA1.outboundLinks }

/-- Server `b` after handling the marker from `a`. -/
def serverWB1 : Server := (HandlePacket serverWB "a" (Message.marker 0)).1

/-- Ring state after the marker on channel `a`→`b` is delivered. -/
def sysW2 : List Server := updServer (updServer sysW1 serverWA2) serverWB1

/-- Server `b` after its queued marker to `a` leaves the channel. -/
def serverWB2 : Server :=
  { serverWB1 with outboundLinks := aset "a" [] serverWB1.outboundLinks }

/-- Server `a` after handling the marker from `b`. -/
def serverWA3 : Server := (HandlePacket serverWA2 "b" (Message.marker 0)).1

/-- Ring state after the marker on channel `b`→`a` is delivered: both servers
have completed snapshot 0. -/
def sysW3 : List Server := updServer (updServer sysW2 serverWB2) serverWA3

/-! ## Association-list lemmas -/

theorem ilookup_iset_self {α : Type} (k : Int) (v : α) (m : List (Int × α)) :
    ilookup k (iset k v m) = some v := by
  induction m with
  | nil => simp [iset, ilookup]
  | cons kv rest ih =>
      obtain ⟨k', v'⟩ := kv
      by_cases h : k = k' <;> simp [iset, ilookup, h, ih]

theorem ilookup_iset_ne {α : Type} {k j : Int} (h : k ≠ j) (v : α) (m : List (Int × α)) :
    ilookup k (iset j v m) = ilookup k m := by
  induction m with
  | nil => simp [iset, ilookup, h]
  | cons kv rest ih =>
      obtain ⟨k', v'⟩ := kv
      by_cases hj : j = k'
      · subst hj; simp [iset, ilookup, h]
      · by_cases hk : k = k' <;> simp [iset, ilookup, hj, hk, ih]

theorem ilookup_imodify_self {α : Type} (k : Int) (f : α → α) (m : List (Int × α)) :
    ilookup k (imodify k f m) = (ilookup k m).map f := by
  induction m with
  | nil => simp [imodify, ilookup]
  | cons kv rest ih =>
      obtain ⟨k', v'⟩ := kv
      by_cases h : k = k' <;> simp [imodify, ilookup, h, ih]

theorem ilookup_imodify_ne {α : Type} {k j : Int} (h : k ≠ j) (f : α → α) (m : List (Int × α)) :
    ilookup k (imodify j f m) = ilookup k m := by
  induction m with
  | nil => simp [imodify, ilookup]
  | cons kv rest ih =>
      obtain ⟨k', v'⟩ := kv
      by_cases hj : j = k'
      · subst hj; simp [imodify, ilookup, h]
      · by_cases hk : k = k' <;> simp [imodify, ilookup, hj, hk, ih]

theorem alookup_aset_self {α : Type} (k : String) (v : α) (m : List (String × α)) :
    alookup k (aset k v m) = some v := by
  induction m with
  | nil => simp [aset, alookup]
  | cons kv rest ih =>
      obtain ⟨k', v'⟩ := kv
      by_cases h : k = k' <;> simp [aset, alookup, h, ih]

theorem alookup_aset_ne {α : Type} {k j : String} (h : k ≠ j) (v : α) (m : List (String × α)) :
    alookup k (aset j v m) = alookup k m := by
  induction m with
  | nil => simp [aset, alookup, h]
  | cons kv rest ih =>
      obtain ⟨k', v'⟩ := kv
      by_cases hj : j = k'
      · subst hj; simp [aset, alookup, h]
      · by_cases hk : k = k' <;> simp [aset, alookup, hj, hk, ih]

theorem alookup_amodify_self {α : Type} (k : String) (f : α → α) (m : List (String × α)) :
    alookup k (amodify k f m) = (alookup k m).map f := by
  induction m with
  | nil => simp [amodify, alookup]
  | cons kv rest ih =>
      obtain ⟨k', v'⟩ := kv
      by_cases h : k = k' <;> simp [amodify, alookup, h, ih]

theorem alookup_amodify_ne {α : Type} {k j : String} (h : k ≠ j) (f : α → α)
    (m : List (String × α)) :
    alookup k (amodify j f m) = alookup k m := by
  induction m with
  | nil => simp [amodify, alookup]
  | cons kv rest ih =>
      obtain ⟨k', v'⟩ := kv
      by_cases hj : j = k'
      · subst hj; simp [amodify, alookup, h]
      · by_cases hk : k = k' <;> simp [amodify, alookup, hj, hk, ih]

theorem amodify_keys {α : Type} (k : String) (f : α → α) (m : List (String × α)) :
    (amodify k f m).map Prod.fst = m.map Prod.fst := by
  induction m with
  | nil => simp [amodify]
  | cons kv rest ih =>
      obtain ⟨k', v'⟩ := kv
      by_cases h : k = k' <;> simp [amodify, h, ih]

theorem aset_keys_of_lookup {α : Type} {k : String} {v : α} {m : List (String × α)} (w : α)
    (h : alookup k m = some v) :
    (aset k w m).map Prod.fst = m.map Prod.fst := by
  induction m with
  | nil => simp [alookup] at h
  | cons kv rest ih =>
      obtain ⟨k', v'⟩ := kv
      by_cases hk : k = k'
      · simp [aset, hk]
      · simp [alookup, hk] at h
        simp [aset, hk, ih h]

theorem alookup_ne_none {α : Type} {k : String} {m : List (String × α)} :
    alookup k m = none ↔ k ∉ m.map Prod.fst := by
  induction m with
  | nil => simp [alookup]
  | cons kv rest ih =>
      obtain ⟨k', v'⟩ := kv
      by_cases h : k = k' <;> simp [alookup, h, ih]

theorem alookup_isSome_mem {α : Type} {k : String} {m : List (String × α)} :
    (alookup k m).isSome ↔ k ∈ m.map Prod.fst := by
  rcases h : alookup k m with _ | v
  · simp [alookup_ne_none.mp h]
  · have : k ∈ m.map Prod.fst := by
      by_contra hc
      rw [← alookup_ne_none (m := m) (k := k)] at hc
      rw [h] at hc; cases hc
    simp [this]

theorem alookup_mem {α : Type} {k : String} {v : α} {m : List (String × α)}
    (h : alookup k m = some v) : (k, v) ∈ m := by
  induction m with
  | nil => simp [alookup] at h
  | cons kv rest ih =>
      obtain ⟨k', v'⟩ := kv
      by_cases hk : k = k'
      · subst hk; simp [alookup] at h; simp [h]
      · simp [alookup, hk] at h
        exact List.mem_cons_of_mem _ (ih h)

theorem alookup_of_mem_nodup {α : Type} {k : String} {v : α} {m : List (String × α)}
    (hnd : (m.map Prod.fst).Nodup) (h : (k, v) ∈ m) : alookup k m = some v := by
  induction m with
  | nil => cases h
  | cons kv rest ih =>
      obtain ⟨k', v'⟩ := kv
      simp only [List.map_cons, List.nodup_cons] at hnd
      rcases List.mem_cons.mp h with h1 | h1
      · cases h1; simp [alookup]
      · have hk : k ≠ k' := by
          rintro rfl
          exact hnd.1 (List.mem_map.mpr ⟨(k, v), h1, rfl⟩)
        simp [alookup, hk, ih hnd.2 h1]

theorem map_if_not_key {α : Type} (k : String) (f : α → α) :
    ∀ (m : List (String × α)), k ∉ m.map Prod.fst →
    m.map (fun kv => if kv.1 = k then (kv.1, f kv.2) else kv) = m := by
  intro m
  induction m with
  | nil => intro _; simp
  | cons kv rest ih =>
      intro h
      obtain ⟨k', v'⟩ := kv
      simp only [List.map_cons, List.mem_cons, not_or] at h
      have hk : k' ≠ k := fun hc => h.1 hc.symm
      simp [hk, ih h.2]

theorem amodify_eq_map {α : Type} (k : String) (f : α → α) :
    ∀ (m : List (String × α)), (m.map Prod.fst).Nodup →
    amodify k f m = m.map (fun kv => if kv.1 = k then (kv.1, f kv.2) else kv) := by
  intro m
  induction m with
  | nil => intro _; simp [amodify]
  | cons kv rest ih =>
      intro hnd
      obtain ⟨k', v'⟩ := kv
      simp only [List.map_cons, List.nodup_cons] at hnd
      by_cases h : k = k'
      · subst h
        simp [amodify, map_if_not_key k f rest hnd.1]
      · simp [amodify, h, Ne.symm h, ih hnd.2]

theorem mem_addIfAbsent {α : Type} [DecidableEq α] (x y : α) (l : List α) :
    y ∈ addIfAbsent x l ↔ y = x ∨ y ∈ l := by
  unfold addIfAbsent
  split <;> rename_i h
  · constructor
    · intro hy; exact Or.inr hy
    · rintro (rfl | hy)
      · exact h
      · exact hy
  · simp [or_comm]

theorem addIfAbsent_nodup {α : Type} [DecidableEq α] (x : α) {l : List α} (h : l.Nodup) :
    (addIfAbsent x l).Nodup := by
  unfold addIfAbsent
  split <;> rename_i hx
  · exact h
  · simpa using List.Nodup.append h (List.nodup_singleton x) (by simpa using hx)

theorem addIfAbsent_idem {α : Type} [DecidableEq α] (x : α) (l : List α) :
    addIfAbsent x (addIfAbsent x l) = addIfAbsent x l := by
  by_cases h : x ∈ l <;> simp [addIfAbsent, h]

theorem aset_aset_same {α : Type} (k : String) (v : α) (m : List (String × α)) :
    aset k v (aset k v m) = aset k v m := by
  induction m with
  | nil => simp [aset]
  | cons kv rest ih =>
      obtain ⟨k', v'⟩ := kv
      by_cases h : k = k' <;> simp [aset, h, ih]

theorem mem_addIfAbsent_self {α : Type} [DecidableEq α] (x : α) (l : List α) :
    x ∈ addIfAbsent x l := (mem_addIfAbsent x x l).mpr (Or.inl rfl)

/-! ## Shape and content lemmas for the operation bodies -/

theorem foldl_pushMessage_shape (msg : Message) :
    ∀ (K : List String) (p : Server),
    ∃ ol, K.foldl (pushMessage msg) p = { p with outboundLinks := ol } := by
  intro K
  induction K with
  | nil => exact fun p => ⟨p.outboundLinks, rfl⟩
  | cons k K ih =>
      intro p
      obtain ⟨ol, hol⟩ := ih (pushMessage msg p k)
      exact ⟨ol, by rw [List.foldl_cons, hol]; rfl⟩

theorem foldl_pushMessage_links (msg : Message) :
    ∀ (K : List String) (p : Server), K.Nodup → (p.outboundLinks.map Prod.fst).Nodup →
    (K.foldl (pushMessage msg) p).outboundLinks =
      p.outboundLinks.map (fun kv => if kv.1 ∈ K then (kv.1, kv.2 ++ [msg]) else kv) := by
  intro K
  induction K with
  | nil => intro p _ _; simp
  | cons k K ih =>
      intro p hK hnd
      rw [List.foldl_cons]
      have hkeys : (pushMessage msg p k).outboundLinks.map Prod.fst =
          p.outboundLinks.map Prod.fst := amodify_keys _ _ _
      have hK' := List.nodup_cons.mp hK
      rw [ih (pushMessage msg p k) hK'.2 (by rw [hkeys]; exact hnd)]
      show (amodify k (fun q => q ++ [msg]) p.outboundLinks).map _ = _
      rw [amodify_eq_map k _ p.outboundLinks hnd, List.map_map]
      apply List.map_congr_left
      intro kv _
      by_cases hk : kv.1 = k
      · subst hk
        simp [hK'.1, Function.comp]
      · by_cases hmem : kv.1 ∈ K <;> simp [hk, hmem, Function.comp]

theorem sendToNeighbors_state (p : Server) (msg : Message)
    (hnd : (p.outboundLinks.map Prod.fst).Nodup) :
    (SendToNeighbors p msg).1 =
      { p with outboundLinks := p.outboundLinks.map (fun kv => (kv.1, kv.2 ++ [msg])) } := by
  have hsorted : (getSortedKeys p.outboundLinks).Nodup :=
    ((List.perm_insertionSort (· ≤ ·) (p.outboundLinks.map Prod.fst)).nodup_iff).mpr hnd
  have h1 := foldl_pushMessage_links msg (getSortedKeys p.outboundLinks) p hsorted hnd
  show List.foldl (pushMessage msg) p (getSortedKeys p.outboundLinks) = _
  obtain ⟨ol, hol⟩ := foldl_pushMessage_shape msg (getSortedKeys p.outboundLinks) p
  rw [hol] at h1 ⊢
  congr 1
  rw [show ({ p with outboundLinks := ol } : Server).outboundLinks = ol from rfl] at h1
  rw [h1]
  apply List.map_congr_left
  intro kv hkv
  have hm : kv.1 ∈ getSortedKeys p.outboundLinks := by
    unfold getSortedKeys
    rw [List.mem_insertionSort]
    exact List.mem_map.mpr ⟨kv, hkv, rfl⟩
  simp [hm]

theorem startSnapshot_state (p : Server) (sid : Int)
    (hnd : (p.outboundLinks.map Prod.fst).Nodup) :
    (StartSnapshot p sid).1 =
      { p with
          inReceivedMarker := iset sid [] p.inReceivedMarker
          receivedSnapshot := addIfAbsent sid p.receivedSnapshot
          snapshot := iset sid
            { id := sid, tokens := [(p.id, p.tokens)], messages := [] } p.snapshot
          outboundLinks :=
            p.outboundLinks.map (fun kv => (kv.1, kv.2 ++ [Message.marker sid])) } := by
  show (SendToNeighbors
    { p with
        inReceivedMarker := iset sid [] p.inReceivedMarker
        receivedSnapshot := addIfAbsent sid p.receivedSnapshot
        snapshot := iset sid
          { id := sid, tokens := [(p.id, p.tokens)], messages := [] } p.snapshot }
    (Message.marker sid)).1 = _
  rw [sendToNeighbors_state _ _ (by exact hnd)]

theorem foldl_pushMessage_keys (msg : Message) :
    ∀ (K : List String) (p : Server),
    (K.foldl (pushMessage msg) p).outboundLinks.map Prod.fst =
      p.outboundLinks.map Prod.fst := by
  intro K
  induction K with
  | nil => intro p; rfl
  | cons k K ih =>
      intro p
      rw [List.foldl_cons, ih]
      exact amodify_keys _ _ _

theorem startSnapshot_shape (p : Server) (sid : Int) :
    ∃ ol, (StartSnapshot p sid).1 =
      { p with
          inReceivedMarker := iset sid [] p.inReceivedMarker
          receivedSnapshot := addIfAbsent sid p.receivedSnapshot
          snapshot := iset sid
            { id := sid, tokens := [(p.id, p.tokens)], messages := [] } p.snapshot
          outboundLinks := ol } := by
  obtain ⟨ol, hol⟩ := foldl_pushMessage_shape (Message.marker sid)
    (getSortedKeys p.outboundLinks)
    { p with
        inReceivedMarker := iset sid [] p.inReceivedMarker
        receivedSnapshot := addIfAbsent sid p.receivedSnapshot
        snapshot := iset sid
          { id := sid, tokens := [(p.id, p.tokens)], messages := [] } p.snapshot }
  exact ⟨ol, hol⟩

theorem startSnapshot_id (p : Server) (sid : Int) : (StartSnapshot p sid).1.id = p.id := by
  obtain ⟨ol, h⟩ := startSnapshot_shape p sid
  rw [h]

theorem startSnapshot_tokens (p : Server) (sid : Int) :
    (StartSnapshot p sid).1.tokens = p.tokens := by
  obtain ⟨ol, h⟩ := startSnapshot_shape p sid
  rw [h]

theorem startSnapshot_inbound (p : Server) (sid : Int) :
    (StartSnapshot p sid).1.inboundLinks = p.inboundLinks := by
  obtain ⟨ol, h⟩ := startSnapshot_shape p sid
  rw [h]

theorem startSnapshot_received (p : Server) (sid : Int) :
    (StartSnapshot p sid).1.receivedSnapshot = addIfAbsent sid p.receivedSnapshot := by
  obtain ⟨ol, h⟩ := startSnapshot_shape p sid
  rw [h]

theorem startSnapshot_marker (p : Server) (sid : Int) :
    (StartSnapshot p sid).1.inReceivedMarker = iset sid [] p.inReceivedMarker := by
  obtain ⟨ol, h⟩ := startSnapshot_shape p sid
  rw [h]

theorem startSnapshot_snapshot (p : Server) (sid : Int) :
    (StartSnapshot p sid).1.snapshot =
      iset sid { id := sid, tokens := [(p.id, p.tokens)], messages := [] } p.snapshot := by
  obtain ⟨ol, h⟩ := startSnapshot_shape p sid
  rw [h]

theorem startSnapshot_outKeys (p : Server) (sid : Int) :
    (StartSnapshot p sid).1.outboundLinks.map Prod.fst = p.outboundLinks.map Prod.fst := by
  unfold StartSnapshot
  exact foldl_pushMessage_keys _ _ _

theorem startSnapshot_outs (p : Server) (sid : Int) :
    (StartSnapshot p sid).2 =
      (getSortedKeys p.outboundLinks).map
        (fun d => Output.sent p.id d (Message.marker sid)) := rfl

theorem captureStep_shape (src : String) (msg : Message) (p : Server) (sid : Int) :
    ∃ sn, captureStep src msg p sid = { p with snapshot := sn } := by
  unfold captureStep
  split
  · exact ⟨p.snapshot, rfl⟩
  · exact ⟨_, rfl⟩

theorem captureFold_shape (src : String) (msg : Message) :
    ∀ (L : List Int) (p : Server),
    ∃ sn, L.foldl (captureStep src msg) p = { p with snapshot := sn } := by
  intro L
  induction L with
  | nil => exact fun p => ⟨p.snapshot, rfl⟩
  | cons sid L ih =>
      intro p
      obtain ⟨sn1, h1⟩ := captureStep_shape src msg p sid
      obtain ⟨sn, hsn⟩ := ih (captureStep src msg p sid)
      exact ⟨sn, by rw [List.foldl_cons, hsn, h1]⟩

theorem captureFold_lookup (src : String) (msg : Message) (s : Int) :
    ∀ (L : List Int) (p : Server), L.Nodup →
    ilookup s (L.foldl (captureStep src msg) p).snapshot =
      (if s ∈ L ∧ src ∉ seenOf p s then
        (ilookup s p.snapshot).map
          (fun st => { st with
            messages := st.messages ++ [{ src := src, dest := p.id, message := msg }] })
       else ilookup s p.snapshot) := by
  intro L
  induction L with
  | nil => intro p _; simp
  | cons sid L ih =>
      intro p hnd
      rw [List.foldl_cons]
      have hnd' := List.nodup_cons.mp hnd
      by_cases hseen : src ∈ (ilookup sid p.inReceivedMarker).getD []
      · have hcs : captureStep src msg p sid = p := by
          simp [captureStep, hseen]
        rw [hcs, ih p hnd'.2]
        by_cases hs : s = sid
        · subst hs
          simp [hnd'.1, seenOf, hseen]
        · simp [hs]
      · have hcs : captureStep src msg p sid =
            { p with
                snapshot := imodify sid
                  (fun st => { st with
                    messages := st.messages ++ [{ src := src, dest := p.id, message := msg }] })
                  p.snapshot } := by
          simp [captureStep, hseen]
        rw [hcs, ih _ hnd'.2]
        by_cases hs : s = sid
        · subst hs
          simp [hnd'.1, seenOf, hseen, ilookup_imodify_self]
        · simp [hs, ilookup_imodify_ne hs, seenOf]

theorem handleToken_shape (p : Server) (src : String) (n : Int) :
    ∃ sn, handleToken p src n =
      ({ p with tokens := p.tokens + n, snapshot := sn }, []) := by
  unfold handleToken
  obtain ⟨sn, hsn⟩ := captureFold_shape src (.token n) p.receivedSnapshot p
  exact ⟨sn, by rw [hsn]⟩

theorem handleToken_lookup (p : Server) (src : String) (n : Int) (s : Int)
    (hnd : p.receivedSnapshot.Nodup) :
    ilookup s (handleToken p src n).1.snapshot =
      (if s ∈ p.receivedSnapshot ∧ src ∉ seenOf p s then
        (ilookup s p.snapshot).map
          (fun st => { st with
            messages := st.messages ++
              [{ src := src, dest := p.id, message := Message.token n }] })
       else ilookup s p.snapshot) := by
  unfold handleToken
  exact captureFold_lookup src (.token n) s p.receivedSnapshot p hnd

theorem handleMarker_state_started (p : Server) (src : String) (sid : Int)
    (h : sid ∈ p.receivedSnapshot) :
    (handleMarker p src sid).1 =
      { p with inReceivedMarker := imodify sid (addIfAbsent src) p.inReceivedMarker } := by
  unfold handleMarker
  simp only [if_pos h]
  split <;> rfl

theorem handleMarker_state_not_started (p : Server) (src : String) (sid : Int)
    (h : sid ∉ p.receivedSnapshot) :
    (handleMarker p src sid).1 =
      { (StartSnapshot p sid).1 with
          inReceivedMarker :=
            imodify sid (addIfAbsent src) (StartSnapshot p sid).1.inReceivedMarker } := by
  unfold handleMarker
  simp only [if_neg h]
  split <;> rfl

theorem hm_tokens (p : Server) (src : String) (sid : Int) :
    (handleMarker p src sid).1.tokens = p.tokens := by
  by_cases h : sid ∈ p.receivedSnapshot
  · rw [handleMarker_state_started p src sid h]
  · rw [handleMarker_state_not_started p src sid h]
    exact startSnapshot_tokens p sid

/-! ## Claim theorems: per-operation behavior -/

/-- C9: handling a `MarkerMessage` never changes the server's `Tokens` field,
whatever the server state; only the per-snapshot bookkeeping may change. -/
theorem marker_preserves_tokens (p : Server) (src : String) (sid : Int) :
    ((HandlePacket p src (.marker sid)).1).tokens = p.tokens :=
  hm_tokens p src sid

/-- C5: a marker for a snapshot id the server has not yet started makes
`HandlePacket` invoke `StartSnapshot` for that id: the resulting state is
exactly `StartSnapshot`'s state with the marker source recorded on top, and
the output trace begins with `StartSnapshot`'s outgoing markers. -/
theorem marker_first_encounter_starts (p : Server) (src : String) (sid : Int)
    (h : sid ∉ p.receivedSnapshot) :
    ∃ rest, HandlePacket p src (.marker sid) =
      ({ (StartSnapshot p sid).1 with
          inReceivedMarker :=
            imodify sid (addIfAbsent src) (StartSnapshot p sid).1.inReceivedMarker },
       (StartSnapshot p sid).2 ++ rest) := by
  show ∃ rest, handleMarker p src sid = _
  unfold handleMarker
  simp only [if_neg h]
  split
  · exact ⟨_, rfl⟩
  · exact ⟨[], by simp⟩

/-- C5 witness: on a fresh server, a first marker from "b" for id 1 produces
the start-snapshot state and trace. -/
theorem marker_first_encounter_starts_witness :
    ∃ rest, HandlePacket
      { id := "a", tokens := 5, outboundLinks := [("b", [])], inboundLinks := ["b"],
        receivedSnapshot := [], inReceivedMarker := [], snapshot := [] } "b" (.marker 1) =
      ({ (StartSnapshot
            { id := "a", tokens := 5, outboundLinks := [("b", [])], inboundLinks := ["b"],
              receivedSnapshot := [], inReceivedMarker := [], snapshot := [] } 1).1 with
          inReceivedMarker :=
            imodify 1 (addIfAbsent "b")
              (StartSnapshot
                { id := "a", tokens := 5, outboundLinks := [("b", [])], inboundLinks := ["b"],
                  receivedSnapshot := [], inReceivedMarker := [], snapshot := [] } 1).1.inReceivedMarker },
       (StartSnapshot
          { id := "a", tokens := 5, outboundLinks := [("b", [])], inboundLinks := ["b"],
            receivedSnapshot := [], inReceivedMarker := [], snapshot := [] } 1).2 ++ rest) :=
  marker_first_encounter_starts _ "b" 1 (by decide)

/-- C2: an application (token) message from `src` is appended to the record
for snapshot `s` if and only if the server has started `s` and has not yet
seen `s`'s marker from `src`; otherwise the record is unchanged. The two
hypotheses are the data-structure invariants the Go maps maintain (no
duplicate started id; a started id owns a record). -/
theorem token_capture_iff (p : Server) (src : String) (n : Int) (s : Int)
    (hnd : p.receivedSnapshot.Nodup)
    (hrec : s ∈ p.receivedSnapshot → (ilookup s p.snapshot).isSome) :
    capturedFor (HandlePacket p src (.token n)).1 s =
      capturedFor p s ++
        (if s ∈ p.receivedSnapshot ∧ src ∉ seenOf p s
         then [{ src := src, dest := p.id, message := Message.token n }]
         else []) := by
  show capturedFor (handleToken p src n).1 s = _
  unfold capturedFor
  rw [handleToken_lookup p src n s hnd]
  split
  · rename_i hcond
    rcases Option.isSome_iff_exists.mp (hrec hcond.1) with ⟨st, hst⟩
    simp [hst]
  · simp

/-- C2 witness: a started snapshot with no marker yet from "a" captures the
4-token message. -/
theorem token_capture_iff_witness :
    [(7 : Int)].Nodup ∧
    capturedFor (HandlePacket
      { id := "b", tokens := 0, outboundLinks := [], inboundLinks := ["a"],
        receivedSnapshot := [7], inReceivedMarker := [(7, [])],
        snapshot := [(7, { id := 7, tokens := [("b", 0)], messages := [] })] }
      "a" (.token 4)).1 7 =
      capturedFor
        { id := "b", tokens := 0, outboundLinks := [], inboundLinks := ["a"],
          receivedSnapshot := [7], inReceivedMarker := [(7, [])],
          snapshot := [(7, { id := 7, tokens := [("b", 0)], messages := [] })] } 7 ++
        (if (7 : Int) ∈ [(7 : Int)] ∧ "a" ∉ seenOf
            { id := "b", tokens := 0, outboundLinks := [], inboundLinks := ["a"],
              receivedSnapshot := [7], inReceivedMarker := [(7, [])],
              snapshot := [(7, { id := 7, tokens := [("b", 0)], messages := [] })] } 7
         then [{ src := "a", dest := "b", message := Message.token 4 }]
         else []) :=
  ⟨by decide, token_capture_iff _ "a" 4 7 (by decide) (by decide)⟩

/-- C6: `StartSnapshot` creates an initially empty marker-tracking set and a
record whose local count is the server's current token count, and sends a
marker tagged with the snapshot id on every outbound channel, iterating the
peers in ascending (sorted) order. The hypothesis is the Go-map invariant
that outbound link keys are distinct. -/
theorem startSnapshot_creates_and_broadcasts (p : Server) (sid : Int)
    (hnd : (p.outboundLinks.map Prod.fst).Nodup) :
    ilookup sid (StartSnapshot p sid).1.inReceivedMarker = some [] ∧
    ilookup sid (StartSnapshot p sid).1.snapshot =
      some { id := sid, tokens := [(p.id, p.tokens)], messages := [] } ∧
    (StartSnapshot p sid).2 =
      (getSortedKeys p.outboundLinks).map
        (fun d => Output.sent p.id d (Message.marker sid)) ∧
    List.Sorted (· ≤ ·) (getSortedKeys p.outboundLinks) ∧
    List.Perm (getSortedKeys p.outboundLinks) (p.outboundLinks.map Prod.fst) ∧
    ∀ kv ∈ p.outboundLinks,
      alookup kv.1 (StartSnapshot p sid).1.outboundLinks =
        some (kv.2 ++ [Message.marker sid]) := by
  refine ⟨?_, ?_, startSnapshot_outs p sid, ?_, ?_, ?_⟩
  · rw [startSnapshot_marker]; exact ilookup_iset_self _ _ _
  · rw [startSnapshot_snapshot]; exact ilookup_iset_self _ _ _
  · unfold getSortedKeys
    exact List.sorted_insertionSort _ _
  · unfold getSortedKeys
    exact List.perm_insertionSort _ _
  · intro kv hkv
    rw [startSnapshot_state p sid hnd]
    show alookup kv.1 (p.outboundLinks.map fun kv => (kv.1, kv.2 ++ [Message.marker sid])) = _
    apply alookup_of_mem_nodup
    · rw [List.map_map]
      have : (Prod.fst ∘ fun kv : String × List Message =>
          (kv.1, kv.2 ++ [Message.marker sid])) = Prod.fst := rfl
      rw [this]; exact hnd
    · exact List.mem_map.mpr ⟨kv, hkv, rfl⟩

/-- C6 witness: a server with two outbound channels "c" and "b" broadcasts in
the order "b", "c". -/
theorem startSnapshot_creates_and_broadcasts_witness :
    ilookup 2 (StartSnapshot
      { id := "a", tokens := 9, outboundLinks := [("c", []), ("b", [])],
        inboundLinks := [], receivedSnapshot := [], inReceivedMarker := [],
        snapshot := [] } 2).1.inReceivedMarker = some [] ∧
    ilookup 2 (StartSnapshot
      { id := "a", tokens := 9, outboundLinks := [("c", []), ("b", [])],
        inboundLinks := [], receivedSnapshot := [], inReceivedMarker := [],
        snapshot := [] } 2).1.snapshot =
      some { id := 2, tokens := [("a", 9)], messages := [] } ∧
    (StartSnapshot
      { id := "a", tokens := 9, outboundLinks := [("c", []), ("b", [])],
        inboundLinks := [], receivedSnapshot := [], inReceivedMarker := [],
        snapshot := [] } 2).2 =
      (getSortedKeys ([("c", ([] : List Message)), ("b", [])])).map
        (fun d => Output.sent "a" d (Message.marker 2)) ∧
    List.Sorted (· ≤ ·) (getSortedKeys ([("c", ([] : List Message)), ("b", [])])) ∧
    List.Perm (getSortedKeys ([("c", ([] : List Message)), ("b", [])]))
      ([("c", ([] : List Message)), ("b", [])].map Prod.fst) ∧
    ∀ kv ∈ [("c", ([] : List Message)), ("b", [])],
      alookup kv.1 (StartSnapshot
        { id := "a", tokens := 9, outboundLinks := [("c", []), ("b", [])],
          inboundLinks := [], receivedSnapshot := [], inReceivedMarker := [],
          snapshot := [] } 2).1.outboundLinks =
        some (kv.2 ++ [Message.marker 2]) :=
  startSnapshot_creates_and_broadcasts _ 2 (by decide)

/-- C7: `SendTokens` treats `resourceCount >= n` as a precondition — a
request exceeding the held count exits fatally with the state untouched;
when it holds and the destination is linked, the effect is the token count
decremented by `n` and the message enqueued on that channel. -/
theorem sendTokens_contract (p : Server) (n : Int) (dest : String) :
    (p.tokens < n → SendTokens p n dest = (.fatalInsufficient p, [])) ∧
    (¬ p.tokens < n → ∀ q, alookup dest p.outboundLinks = some q →
      SendTokens p n dest =
        (.ok { p with
                 tokens := p.tokens - n
                 outboundLinks :=
                   amodify dest (fun q0 => q0 ++ [Message.token n]) p.outboundLinks },
         [Output.sent p.id dest (.token n)])) := by
  constructor
  · intro h
    simp [SendTokens, h]
  · intro h q hq
    simp only [SendTokens, if_neg h]
    rw [show alookup dest
      ({ p with tokens := p.tokens - n } : Server).outboundLinks = some q from hq]

/-- C7 witness: with 5 tokens, requesting 11 is fatal and leaves the state
unchanged; requesting 3 to the linked peer "b" decrements to 2 and enqueues. -/
theorem sendTokens_contract_witness :
    SendTokens
      { id := "a", tokens := 5, outboundLinks := [("b", [])], inboundLinks := [],
        receivedSnapshot := [], inReceivedMarker := [], snapshot := [] } 11 "b" =
      (.fatalInsufficient
        { id := "a", tokens := 5, outboundLinks := [("b", [])], inboundLinks := [],
          receivedSnapshot := [], inReceivedMarker := [], snapshot := [] }, []) ∧
    SendTokens
      { id := "a", tokens := 5, outboundLinks := [("b", [])], inboundLinks := [],
        receivedSnapshot := [], inReceivedMarker := [], snapshot := [] } 3 "b" =
      (.ok { id := "a", tokens := 5 - 3,
             outboundLinks :=
               amodify "b" (fun q0 => q0 ++ [Message.token 3]) [("b", [])],
             inboundLinks := [],
             receivedSnapshot := [], inReceivedMarker := [], snapshot := [] },
       [Output.sent "a" "b" (.token 3)]) :=
  ⟨(sendTokens_contract _ 11 "b").1 (by decide),
   (sendTokens_contract _ 3 "b").2 (by decide) [] (by decide)⟩

/-- C10: on the unknown-destination fatal path of `SendTokens` (enough tokens
held, but no outbound link to `dest`), the token count has already been
decremented and the send event already logged when the fatal fires: the
failure does not leave the server state unchanged. -/
theorem sendTokens_unknown_dest_decrements_first (p : Server) (n : Int) (dest : String)
    (h1 : ¬ p.tokens < n) (h2 : alookup dest p.outboundLinks = none) :
    SendTokens p n dest =
      (.fatalUnknownDest { p with tokens := p.tokens - n },
       [Output.sent p.id dest (.token n)]) := by
  simp only [SendTokens, if_neg h1]
  rw [show alookup dest ({ p with tokens := p.tokens - n } : Server).outboundLinks =
    none from h2]

/-- C10 witness: sending 3 of 5 held tokens to the unlinked peer "z" fails
fatally with the count already at 2. -/
theorem sendTokens_unknown_dest_decrements_first_witness :
    SendTokens
      { id := "a", tokens := 5, outboundLinks := [("b", [])], inboundLinks := [],
        receivedSnapshot := [], inReceivedMarker := [], snapshot := [] } 3 "z" =
      (.fatalUnknownDest
        { id := "a", tokens := 5 - 3, outboundLinks := [("b", [])], inboundLinks := [],
          receivedSnapshot := [], inReceivedMarker := [], snapshot := [] },
       [Output.sent "a" "z" (.token 3)]) :=
  sendTokens_unknown_dest_decrements_first _ 3 "z" (by decide) (by decide)

/-- C8: adding a directed link is idempotent per direction — adding the same
link twice leaves both endpoints exactly as after one addition — and adding a
self-link (same server id on both ends) is a no-op. -/
theorem addOutboundLink_idempotent_self_noop (s d : Server) :
    AddOutboundLink (AddOutboundLink s d).1 (AddOutboundLink s d).2 = AddOutboundLink s d ∧
    (s.id = d.id → AddOutboundLink s d = (s, d)) := by
  constructor
  · by_cases h : s.id = d.id
    · simp [AddOutboundLink, h]
    · simp [AddOutboundLink, h, aset_aset_same, addIfAbsent_idem]
  · intro h
    simp [AddOutboundLink, h]

/-- C8 witness: a self-link between two copies of server "a" is dropped. -/
theorem addOutboundLink_idempotent_self_noop_witness :
    AddOutboundLink
      { id := "a", tokens := 1, outboundLinks := [], inboundLinks := [],
        receivedSnapshot := [], inReceivedMarker := [], snapshot := [] }
      { id := "a", tokens := 2, outboundLinks := [], inboundLinks := [],
        receivedSnapshot := [], inReceivedMarker := [], snapshot := [] } =
      ({ id := "a", tokens := 1, outboundLinks := [], inboundLinks := [],
         receivedSnapshot := [], inReceivedMarker := [], snapshot := [] },
       { id := "a", tokens := 2, outboundLinks := [], inboundLinks := [],
         receivedSnapshot := [], inReceivedMarker := [], snapshot := [] }) :=
  (addOutboundLink_idempotent_self_noop _ _).2 (by decide)

/-- C4 counterexample: calling `StartSnapshot` a second time for an
already-started id does change the state — here the marker-seen set for id 1,
previously containing "b", is reset to empty, and the whole server state
differs from what it was. -/
theorem startSnapshot_second_call_changes_state :
    seenOf (StartSnapshot
      { id := "a", tokens := 5, outboundLinks := [], inboundLinks := ["b"],
        receivedSnapshot := [1], inReceivedMarker := [(1, ["b"])],
        snapshot := [(1, { id := 1, tokens := [("a", 7)], messages := [] })] } 1).1 1 = [] ∧
    (StartSnapshot
      { id := "a", tokens := 5, outboundLinks := [], inboundLinks := ["b"],
        receivedSnapshot := [1], inReceivedMarker := [(1, ["b"])],
        snapshot := [(1, { id := 1, tokens := [("a", 7)], messages := [] })] } 1).1 ≠
      { id := "a", tokens := 5, outboundLinks := [], inboundLinks := ["b"],
        receivedSnapshot := [1], inReceivedMarker := [(1, ["b"])],
        snapshot := [(1, { id := 1, tokens := [("a", 7)], messages := [] })] } := by
  constructor
  · decide
  · decide

/-- C4 (amended): a second `StartSnapshot` for an already-started id leaves
`Tokens` and the started-set unchanged, but it resets the marker-seen set to
empty and replaces the record by a fresh one re-capturing the current count;
only the marker-handling path is idempotent — `HandlePacket` on a marker for
an already-started id does not re-invoke `StartSnapshot`, leaving the token
count, started-set and record untouched. -/
theorem startSnapshot_second_call_behavior (p : Server) (src : String) (sid : Int)
    (h : sid ∈ p.receivedSnapshot) :
    (StartSnapshot p sid).1.tokens = p.tokens ∧
    (StartSnapshot p sid).1.receivedSnapshot = p.receivedSnapshot ∧
    ilookup sid (StartSnapshot p sid).1.inReceivedMarker = some [] ∧
    ilookup sid (StartSnapshot p sid).1.snapshot =
      some { id := sid, tokens := [(p.id, p.tokens)], messages := [] } ∧
    (HandlePacket p src (.marker sid)).1.tokens = p.tokens ∧
    (HandlePacket p src (.marker sid)).1.receivedSnapshot = p.receivedSnapshot ∧
    (HandlePacket p src (.marker sid)).1.snapshot = p.snapshot := by
  refine ⟨startSnapshot_tokens p sid, ?_, ?_, ?_, hm_tokens p src sid, ?_, ?_⟩
  · rw [startSnapshot_received]
    simp [addIfAbsent, h]
  · rw [startSnapshot_marker]; exact ilookup_iset_self _ _ _
  · rw [startSnapshot_snapshot]; exact ilookup_iset_self _ _ _
  · show (handleMarker p src sid).1.receivedSnapshot = _
    rw [handleMarker_state_started p src sid h]
  · show (handleMarker p src sid).1.snapshot = _
    rw [handleMarker_state_started p src sid h]

/-- C4 witness: concrete instance of the amended behavior on a started
snapshot id. -/
theorem startSnapshot_second_call_behavior_witness :
    (StartSnapshot
      { id := "a", tokens := 5, outboundLinks := [], inboundLinks := ["b"],
        receivedSnapshot := [1], inReceivedMarker := [(1, ["b"])],
        snapshot := [(1, { id := 1, tokens := [("a", 7)], messages := [] })] } 1).1.tokens = 5 ∧
    (StartSnapshot
      { id := "a", tokens := 5, outboundLinks := [], inboundLinks := ["b"],
        receivedSnapshot := [1], inReceivedMarker := [(1, ["b"])],
        snapshot := [(1, { id := 1, tokens := [("a", 7)], messages := [] })] }
      1).1.receivedSnapshot = [1] ∧
    ilookup 1 (StartSnapshot
      { id := "a", tokens := 5, outboundLinks := [], inboundLinks := ["b"],
        receivedSnapshot := [1], inReceivedMarker := [(1, ["b"])],
        snapshot := [(1, { id := 1, tokens := [("a", 7)], messages := [] })] }
      1).1.inReceivedMarker = some [] ∧
    ilookup 1 (StartSnapshot
      { id := "a", tokens := 5, outboundLinks := [], inboundLinks := ["b"],
        receivedSnapshot := [1], inReceivedMarker := [(1, ["b"])],
        snapshot := [(1, { id := 1, tokens := [("a", 7)], messages := [] })] }
      1).1.snapshot = some { id := 1, tokens := [("a", 5)], messages := [] } ∧
    (HandlePacket
      { id := "a", tokens := 5, outboundLinks := [], inboundLinks := ["b"],
        receivedSnapshot := [1], inReceivedMarker := [(1, ["b"])],
        snapshot := [(1, { id := 1, tokens := [("a", 7)], messages := [] })] }
      "b" (.marker 1)).1.tokens = 5 ∧
    (HandlePacket
      { id := "a", tokens := 5, outboundLinks := [], inboundLinks := ["b"],
        receivedSnapshot := [1], inReceivedMarker := [(1, ["b"])],
        snapshot := [(1, { id := 1, tokens := [("a", 7)], messages := [] })] }
      "b" (.marker 1)).1.receivedSnapshot = [1] ∧
    (HandlePacket
      { id := "a", tokens := 5, outboundLinks := [], inboundLinks := ["b"],
        receivedSnapshot := [1], inReceivedMarker := [(1, ["b"])],
        snapshot := [(1, { id := 1, tokens := [("a", 7)], messages := [] })] }
      "b" (.marker 1)).1.snapshot =
      [(1, { id := 1, tokens := [("a", 7)], messages := [] })] :=
  startSnapshot_second_call_behavior _ "b" 1 (by decide)

/-! ## Completion counting (claim C3) -/

theorem handleToken_outs (p : Server) (src : String) (n : Int) :
    (handleToken p src n).2 = [] := by
  obtain ⟨sn, hsn⟩ := handleToken_shape p src n
  rw [hsn]

theorem countP_sent_zero (pid : String) (s : Int) (a : String) (m : Message)
    (L : List String) :
    (L.map (fun d => Output.sent a d m)).countP (isCompleteFor pid s) = 0 := by
  rw [List.countP_eq_zero]
  intro o ho
  rcases List.mem_map.mp ho with ⟨d, _, rfl⟩
  simp [isCompleteFor]

theorem handleMarker_inbound (p : Server) (src : String) (sid : Int) :
    (handleMarker p src sid).1.inboundLinks = p.inboundLinks := by
  by_cases h : sid ∈ p.receivedSnapshot
  · rw [handleMarker_state_started p src sid h]
  · rw [handleMarker_state_not_started p src sid h]
    exact startSnapshot_inbound p sid

theorem handleMarker_id (p : Server) (src : String) (sid : Int) :
    (handleMarker p src sid).1.id = p.id := by
  by_cases h : sid ∈ p.receivedSnapshot
  · rw [handleMarker_state_started p src sid h]
  · rw [handleMarker_state_not_started p src sid h]
    exact startSnapshot_id p sid

theorem handleMarker_seen_started (p : Server) (src : String) (sid : Int) (cur : List String)
    (h : sid ∈ p.receivedSnapshot) (hcur : ilookup sid p.inReceivedMarker = some cur) :
    ilookup sid (handleMarker p src sid).1.inReceivedMarker = some (addIfAbsent src cur) := by
  rw [handleMarker_state_started p src sid h]
  show ilookup sid (imodify sid (addIfAbsent src) p.inReceivedMarker) = _
  rw [ilookup_imodify_self, hcur]
  rfl

theorem handleMarker_seen_not_started (p : Server) (src : String) (sid : Int)
    (h : sid ∉ p.receivedSnapshot) :
    ilookup sid (handleMarker p src sid).1.inReceivedMarker = some [src] := by
  rw [handleMarker_state_not_started p src sid h]
  show ilookup sid (imodify sid (addIfAbsent src) (StartSnapshot p sid).1.inReceivedMarker) = _
  rw [ilookup_imodify_self, startSnapshot_marker, ilookup_iset_self]
  rfl

theorem handleMarker_seen_ne (p : Server) (src : String) (sid s : Int) (hne : s ≠ sid) :
    ilookup s (handleMarker p src sid).1.inReceivedMarker =
      ilookup s p.inReceivedMarker := by
  by_cases h : sid ∈ p.receivedSnapshot
  · rw [handleMarker_state_started p src sid h]
    show ilookup s (imodify sid (addIfAbsent src) p.inReceivedMarker) = _
    exact ilookup_imodify_ne hne _ _
  · rw [handleMarker_state_not_started p src sid h]
    show ilookup s (imodify sid (addIfAbsent src) (StartSnapshot p sid).1.inReceivedMarker) = _
    rw [ilookup_imodify_ne hne, startSnapshot_marker]
    exact ilookup_iset_ne hne _ _

theorem handleMarker_received (p : Server) (src : String) (sid : Int) :
    (handleMarker p src sid).1.receivedSnapshot =
      if sid ∈ p.receivedSnapshot then p.receivedSnapshot
      else addIfAbsent sid p.receivedSnapshot := by
  by_cases h : sid ∈ p.receivedSnapshot
  · rw [handleMarker_state_started p src sid h, if_pos h]
  · rw [handleMarker_state_not_started p src sid h, if_neg h]
    exact startSnapshot_received p sid

theorem handleMarker_guard (p : Server) (src : String) (sid : Int) :
    (handleMarker p src sid).2 =
      if (seenOf (handleMarker p src sid).1 sid).length =
          (handleMarker p src sid).1.inboundLinks.length
      then (if sid ∈ p.receivedSnapshot then [] else (StartSnapshot p sid).2) ++
           [Output.publish sid (ilookup sid (handleMarker p src sid).1.snapshot),
            Output.complete (handleMarker p src sid).1.id sid]
      else (if sid ∈ p.receivedSnapshot then [] else (StartSnapshot p sid).2) := by
  unfold handleMarker
  by_cases h : sid ∈ p.receivedSnapshot <;> simp only [if_pos, if_neg, h, if_true, if_false] <;>
    split <;> simp_all

theorem handleMarker_complete_count_ne (p : Server) (src : String) (sid : Int)
    (pid : String) (s : Int) (hne : sid ≠ s) :
    ((handleMarker p src sid).2.countP (isCompleteFor pid s)) = 0 := by
  rw [handleMarker_guard]
  have hstart : ((if sid ∈ p.receivedSnapshot then []
      else (StartSnapshot p sid).2).countP (isCompleteFor pid s)) = 0 := by
    split
    · rfl
    · rw [startSnapshot_outs]
      exact countP_sent_zero pid s _ _ _
  split
  · rw [List.countP_append, hstart]
    simp [List.countP_cons, isCompleteFor, hne]
  · exact hstart

theorem handleMarker_complete_count_self (p : Server) (src : String) (s : Int)
    (pid : String) (seen1 : List String)
    (hpid : p.id = pid)
    (hseen : ilookup s (handleMarker p src s).1.inReceivedMarker = some seen1) :
    ((handleMarker p src s).2.countP (isCompleteFor pid s)) =
      if seen1.length = p.inboundLinks.length then 1 else 0 := by
  rw [handleMarker_guard]
  have hstart : ((if s ∈ p.receivedSnapshot then []
      else (StartSnapshot p s).2).countP (isCompleteFor pid s)) = 0 := by
    split
    · rfl
    · rw [startSnapshot_outs]
      exact countP_sent_zero pid s _ _ _
  have hg : (seenOf (handleMarker p src s).1 s).length =
        (handleMarker p src s).1.inboundLinks.length ↔
      seen1.length = p.inboundLinks.length := by
    rw [handleMarker_inbound, seenOf, hseen]
    rfl
  split
  · rename_i htrig
    rw [if_pos (hg.mp htrig), List.countP_append, hstart]
    simp [List.countP_cons, isCompleteFor, handleMarker_id, hpid]
  · rename_i htrig
    rw [if_neg (fun hc => htrig (hg.mpr hc))]
    exact hstart

theorem nodup_subset_length_iff {l L : List String} (hl : l.Nodup) (hL : L.Nodup)
    (hsub : ∀ x ∈ l, x ∈ L) : l.length = L.length ↔ ∀ x ∈ L, x ∈ l := by
  constructor
  · intro hlen x hx
    have hsub' : l.toFinset ⊆ L.toFinset := fun y hy =>
      List.mem_toFinset.mpr (hsub y (List.mem_toFinset.mp hy))
    have hcard : L.toFinset.card ≤ l.toFinset.card := by
      rw [List.toFinset_card_of_nodup hl, List.toFinset_card_of_nodup hL]
      omega
    have heq := Finset.eq_of_subset_of_card_le hsub' hcard
    exact List.mem_toFinset.mp (heq ▸ List.mem_toFinset.mpr hx)
  · intro hsup
    have heq : l.toFinset = L.toFinset := by
      apply Finset.Subset.antisymm
      · exact fun y hy => List.mem_toFinset.mpr (hsub y (List.mem_toFinset.mp hy))
      · exact fun y hy => List.mem_toFinset.mpr (hsup y (List.mem_toFinset.mp hy))
    calc l.length = l.toFinset.card := (List.toFinset_card_of_nodup hl).symm
      _ = L.toFinset.card := by rw [heq]
      _ = L.length := List.toFinset_card_of_nodup hL

theorem markerSrcs_cons_token (s : Int) (src0 : String) (n : Int)
    (rest : List (String × Message)) :
    markerSrcs s ((src0, Message.token n) :: rest) = markerSrcs s rest := by
  simp [markerSrcs]

theorem markerSrcs_cons_marker_ne (s sid : Int) (hne : sid ≠ s) (src0 : String)
    (rest : List (String × Message)) :
    markerSrcs s ((src0, Message.marker sid) :: rest) = markerSrcs s rest := by
  simp [markerSrcs, hne]

theorem markerSrcs_cons_marker_self (s : Int) (src0 : String)
    (rest : List (String × Message)) :
    markerSrcs s ((src0, Message.marker s) :: rest) = src0 :: markerSrcs s rest := by
  simp [markerSrcs]

theorem run_completion_count (pid : String) (inb : List String) (s : Int) :
    ∀ (pkts : List (String × Message)) (p : Server) (cur : List String),
    p.id = pid → p.inboundLinks = inb → inb.Nodup →
    (markerSrcs s pkts).Nodup →
    (∀ x ∈ markerSrcs s pkts, x ∈ inb) →
    (∀ x ∈ markerSrcs s pkts, x ∉ cur) →
    cur.Nodup → (∀ x ∈ cur, x ∈ inb) →
    (s ∈ p.receivedSnapshot → ilookup s p.inReceivedMarker = some cur) →
    (s ∉ p.receivedSnapshot → ilookup s p.inReceivedMarker = none ∧ cur = []) →
    ((runServer p pkts).2.countP (isCompleteFor pid s)) =
      (if (∀ x ∈ inb, x ∈ cur ++ markerSrcs s pkts) ∧ ¬(∀ x ∈ inb, x ∈ cur)
       then 1 else 0) := by
  intro pkts
  induction pkts with
  | nil =>
      intro p cur hid hinb hnd hms hsub hnc hcn hci hst hnst
      show (List.countP _ [] = _)
      rw [List.countP_nil]
      rw [show markerSrcs s [] = [] from rfl, List.append_nil]
      by_cases hA : ∀ x ∈ inb, x ∈ cur
      · rw [if_neg (fun hand => hand.2 hA)]
      · rw [if_neg (fun hand => hA hand.1)]
  | cons pkt rest ih =>
      intro p cur hid hinb hnd hms hsub hnc hcn hci hst hnst
      obtain ⟨src0, msg⟩ := pkt
      show ((HandlePacket p src0 msg).2 ++
        (runServer (HandlePacket p src0 msg).1 rest).2).countP (isCompleteFor pid s) = _
      rw [List.countP_append]
      match msg with
      | .token n =>
          show ((handleToken p src0 n).2.countP _ + _ = _)
          rw [handleToken_outs, List.countP_nil]
          obtain ⟨sn, hsn⟩ := handleToken_shape p src0 n
          rw [markerSrcs_cons_token] at hms hsub hnc ⊢
          have h0 := ih (handleToken p src0 n).1 cur
            (by rw [hsn]; exact hid) (by rw [hsn]; exact hinb) hnd hms hsub hnc hcn hci
            (by rw [hsn]; exact hst) (by rw [hsn]; exact hnst)
          show (0 + _ = _)
          rw [Nat.zero_add]
          exact h0
      | .marker sid =>
          show ((handleMarker p src0 sid).2.countP (isCompleteFor pid s) +
            (runServer (handleMarker p src0 sid).1 rest).2.countP (isCompleteFor pid s) = _)
          by_cases hsid : sid = s
          · subst hsid
            rw [markerSrcs_cons_marker_self] at hms hsub hnc ⊢
            have hms' := List.nodup_cons.mp hms
            have hsrc0inb : src0 ∈ inb := hsub src0 (List.mem_cons_self _ _)
            have hsrc0cur : src0 ∉ cur := hnc src0 (List.mem_cons_self _ _)
            have hcur' : addIfAbsent src0 cur = cur ++ [src0] := by
              unfold addIfAbsent
              rw [if_neg hsrc0cur]
            -- the post-state's seen set for `sid`
            have hseen1 : ilookup sid (handleMarker p src0 sid).1.inReceivedMarker =
                some (cur ++ [src0]) := by
              by_cases hstt : sid ∈ p.receivedSnapshot
              · rw [handleMarker_seen_started p src0 sid cur hstt (hst hstt), hcur']
              · rcases hnst hstt with ⟨_, rfl⟩
                rw [handleMarker_seen_not_started p src0 sid hstt]
                rfl
            have hcount := handleMarker_complete_count_self p src0 sid pid
              (cur ++ [src0]) hid hseen1
            rw [hcount, hinb]
            have hmem1 : sid ∈ (handleMarker p src0 sid).1.receivedSnapshot := by
              rw [handleMarker_received]
              split
              · assumption
              · exact mem_addIfAbsent_self _ _
            have hnodup' : (cur ++ [src0]).Nodup := by
              simpa using List.Nodup.append hcn (List.nodup_singleton src0)
                (by simpa using hsrc0cur)
            have hsub' : ∀ x ∈ cur ++ [src0], x ∈ inb := by
              intro x hx
              rcases List.mem_append.mp hx with hx | hx
              · exact hci x hx
              · rcases List.mem_singleton.mp hx with rfl
                exact hsrc0inb
            have hrest := ih (handleMarker p src0 sid).1 (cur ++ [src0])
              (by rw [handleMarker_id]; exact hid)
              (by rw [handleMarker_inbound]; exact hinb)
              hnd hms'.2
              (fun x hx => hsub x (List.mem_cons_of_mem _ hx))
              (fun x hx => by
                intro hmem
                rcases List.mem_append.mp hmem with hm | hm
                · exact hnc x (List.mem_cons_of_mem _ hx) hm
                · rcases List.mem_singleton.mp hm with rfl
                  exact hms'.1 hx)
              hnodup' hsub'
              (fun _ => hseen1)
              (fun hc => absurd hmem1 hc)
            rw [hrest]
            -- arithmetic of the two if-expressions
            have hiff : (cur ++ [src0]).length = inb.length ↔
                ∀ x ∈ inb, x ∈ cur ++ [src0] :=
              nodup_subset_length_iff hnodup' hnd hsub'
            have happ : (cur ++ [src0]) ++ markerSrcs sid rest =
                cur ++ src0 :: markerSrcs sid rest := by
              rw [List.append_assoc]
              rfl
            have hncur : ¬ ∀ x ∈ inb, x ∈ cur :=
              fun hall => hsrc0cur (hall src0 hsrc0inb)
            by_cases hT : (cur ++ [src0]).length = inb.length
            · have hfull := hiff.mp hT
              rw [if_pos hT]
              have hsecond : ¬ ¬ ∀ x ∈ inb, x ∈ cur ++ [src0] := fun hc => hc hfull
              rw [if_neg (fun hand => hsecond hand.2)]
              have hbig : ∀ x ∈ inb, x ∈ cur ++ src0 :: markerSrcs sid rest := by
                intro x hx
                rw [← happ]
                exact List.mem_append.mpr (Or.inl (hfull x hx))
              rw [if_pos ⟨hbig, hncur⟩]
            · have hnful := fun hc => hT (hiff.mpr hc)
              rw [if_neg hT, Nat.zero_add]
              by_cases hA : ∀ x ∈ inb, x ∈ (cur ++ [src0]) ++ markerSrcs sid rest
              · rw [if_pos ⟨hA, hnful⟩, if_pos ⟨by rw [← happ]; exact hA, hncur⟩]
              · rw [if_neg (fun hand => hA hand.1),
                  if_neg (fun hand => hA (by rw [happ]; exact hand.1))]
          · -- a marker for another snapshot id leaves the `s` bookkeeping alone
            rw [markerSrcs_cons_marker_ne s sid hsid] at hms hsub hnc ⊢
            rw [handleMarker_complete_count_ne p src0 sid pid s hsid, Nat.zero_add]
            have hmem : s ∈ (handleMarker p src0 sid).1.receivedSnapshot ↔
                s ∈ p.receivedSnapshot := by
              rw [handleMarker_received]
              split
              · exact Iff.rfl
              · rw [mem_addIfAbsent]
                constructor
                · rintro (h | h)
                  · exact absurd h.symm hsid
                  · exact h
                · exact Or.inr
            exact ih (handleMarker p src0 sid).1 cur
              (by rw [handleMarker_id]; exact hid)
              (by rw [handleMarker_inbound]; exact hinb)
              hnd hms hsub hnc hcn hci
              (fun hmem' => by
                rw [handleMarker_seen_ne p src0 sid s (Ne.symm hsid)]
                exact hst (hmem.mp hmem'))
              (fun hmem' => by
                rw [handleMarker_seen_ne p src0 sid s (Ne.symm hsid)]
                exact hnst (fun hc => hmem' (hmem.mpr hc)))

/-- C3: over a whole run of deliveries to a server starting with no
bookkeeping for snapshot `s`, under the channel contract (marker sources are
inbound peers; each inbound channel delivers at most one marker for `s`), the
completion notification for `s` is emitted exactly once if markers arrive on
every inbound channel, and never otherwise. Because the statement holds for
every run, applying it to any prefix shows the notification never fires
before the last inbound channel's marker (prefix count 0) and never fires a
second time afterwards (whole-run count 1). -/
theorem completion_fires_exactly_once (p : Server) (s : Int)
    (pkts : List (String × Message))
    (hnd : p.inboundLinks.Nodup)
    (hms : (markerSrcs s pkts).Nodup)
    (hsub : ∀ x ∈ markerSrcs s pkts, x ∈ p.inboundLinks)
    (hstart : s ∉ p.receivedSnapshot)
    (hmk : ilookup s p.inReceivedMarker = none) :
    ((runServer p pkts).2.countP (isCompleteFor p.id s)) =
      if (∀ x ∈ p.inboundLinks, x ∈ markerSrcs s pkts) ∧ p.inboundLinks ≠ []
      then 1 else 0 := by
  have h := run_completion_count p.id p.inboundLinks s pkts p [] rfl rfl hnd hms hsub
    (fun x _ hx => absurd hx (List.not_mem_nil x)) List.nodup_nil
    (fun x hx => absurd hx (List.not_mem_nil x))
    (fun hc => absurd hc hstart) (fun _ => ⟨hmk, rfl⟩)
  rw [h]
  apply if_congr _ rfl rfl
  constructor
  · rintro ⟨h1, h2⟩
    refine ⟨fun x hx => h1 x hx, fun heq => h2 ?_⟩
    rw [heq]
    exact fun x hx => absurd hx (List.not_mem_nil x)
  · rintro ⟨h1, h2⟩
    refine ⟨fun x hx => h1 x hx, fun hall => h2 ?_⟩
    exact List.eq_nil_iff_forall_not_mem.mpr (fun a ha => absurd (hall a ha) (List.not_mem_nil a))

/-- C3 witness: a single inbound channel "a"; its marker for id 1 makes the
completion for ("b", 1) fire exactly once over the run. -/
theorem completion_fires_exactly_once_witness :
    ((runServer
      { id := "b", tokens := 0, outboundLinks := [], inboundLinks := ["a"],
        receivedSnapshot := [], inReceivedMarker := [], snapshot := [] }
      [("a", Message.marker 1)]).2.countP (isCompleteFor "b" 1)) =
      if (∀ x ∈ ["a"], x ∈ markerSrcs 1 [("a", Message.marker 1)]) ∧ ["a"] ≠ ([] : List String)
      then 1 else 0 :=
  completion_fires_exactly_once
    { id := "b", tokens := 0, outboundLinks := [], inboundLinks := ["a"],
      receivedSnapshot := [], inReceivedMarker := [], snapshot := [] }
    1 [("a", Message.marker 1)] (by decide) (by decide) (by decide) (by decide)
    (by decide)

/-! ## Queue accounting lemmas (claim C1) -/

theorem markerCount_append_token (s : Int) (q : List Message) (n : Int) :
    markerCount s (q ++ [Message.token n]) = markerCount s q := by
  unfold markerCount
  rw [List.countP_append]
  simp [isMarkerFor]

theorem markerCount_append_marker (s sid : Int) (q : List Message) :
    markerCount s (q ++ [Message.marker sid]) =
      markerCount s q + (if sid = s then 1 else 0) := by
  unfold markerCount
  rw [List.countP_append]
  by_cases h : sid = s <;> simp [isMarkerFor, h]

theorem markerCount_cons (s : Int) (m : Message) (q : List Message) :
    markerCount s (m :: q) = (if isMarkerFor s m then 1 else 0) + markerCount s q := by
  unfold markerCount
  rw [List.countP_cons]
  omega

theorem any_iff_markerCount (s : Int) (q : List Message) :
    q.any (isMarkerFor s) ↔ markerCount s q ≠ 0 := by
  unfold markerCount
  induction q with
  | nil => simp
  | cons m q ih =>
      rw [List.any_cons, List.countP_cons]
      by_cases h : isMarkerFor s m <;> simp [h, ih]

theorem tokSum_append (q r : List Message) : tokSum (q ++ r) = tokSum q + tokSum r := by
  unfold tokSum
  rw [List.map_append, List.sum_append]

theorem takeWhile_append_of_any {s : Int} (q : List Message) (m : Message)
    (h : q.any (isMarkerFor s)) :
    (q ++ [m]).takeWhile (fun x => ! isMarkerFor s x) =
      q.takeWhile (fun x => ! isMarkerFor s x) := by
  induction q with
  | nil => simp at h
  | cons x q ih =>
      rw [List.any_cons] at h
      by_cases hx : isMarkerFor s x
      · simp [List.takeWhile_cons, hx]
      · have hq : q.any (isMarkerFor s) := by
          rcases Bool.or_eq_true_iff.mp h with h1 | h1
          · exact absurd h1 hx
          · exact h1
        simp [List.takeWhile_cons, hx, ih hq]

theorem takeWhile_append_of_not_any {s : Int} (q : List Message) (m : Message)
    (h : ¬ q.any (isMarkerFor s)) :
    (q ++ [m]).takeWhile (fun x => ! isMarkerFor s x) =
      q ++ [m].takeWhile (fun x => ! isMarkerFor s x) := by
  induction q with
  | nil => simp
  | cons x q ih =>
      rw [List.any_cons] at h
      have hx : ¬ isMarkerFor s x := fun hc => h (by simp [hc])
      have hq : ¬ q.any (isMarkerFor s) := fun hc => h (by simp [hc])
      simp [List.takeWhile_cons, hx, ih hq]

theorem preCut_append_token (s : Int) (st : Bool) (q : List Message) (n : Int) :
    preCut s st (q ++ [Message.token n]) =
      preCut s st q + (if q.any (isMarkerFor s) ∨ st then 0 else n) := by
  unfold preCut
  by_cases hany : q.any (isMarkerFor s)
  · have hany' : (q ++ [Message.token n]).any (isMarkerFor s) := by
      rw [List.any_append]
      simp [hany]
    rw [if_pos hany', if_pos hany, takeWhile_append_of_any q _ hany]
    simp [hany]
  · have hany' : ¬ (q ++ [Message.token n]).any (isMarkerFor s) := by
      rw [List.any_append]
      simp [hany, isMarkerFor]
    rw [if_neg hany', if_neg hany]
    cases st with
    | true => simp [hany]
    | false =>
        simp only [if_neg (Bool.false_ne_true), hany, false_or, if_false]
        rw [tokSum_append]
        simp [tokSum, payload]

theorem preCut_append_marker_ne (s sid : Int) (hne : sid ≠ s) (st : Bool)
    (q : List Message) :
    preCut s st (q ++ [Message.marker sid]) = preCut s st q := by
  unfold preCut
  have hm : isMarkerFor s (Message.marker sid) = false := by
    simp [isMarkerFor, hne]
  by_cases hany : q.any (isMarkerFor s)
  · have hany' : (q ++ [Message.marker sid]).any (isMarkerFor s) := by
      rw [List.any_append]
      simp [hany]
    rw [if_pos hany', if_pos hany, takeWhile_append_of_any q _ hany]
  · have hany' : ¬ (q ++ [Message.marker sid]).any (isMarkerFor s) := by
      rw [List.any_append]
      simp [hany, hm]
    rw [if_neg hany', if_neg hany]
    have ht : tokSum (q ++ [Message.marker sid]) = tokSum q := by
      rw [tokSum_append]; simp [tokSum, payload]
    rw [ht]

theorem preCut_append_marker_self (s : Int) (st : Bool) (q : List Message)
    (h : ¬ q.any (isMarkerFor s)) :
    preCut s st (q ++ [Message.marker s]) = tokSum q := by
  unfold preCut
  have hany' : (q ++ [Message.marker s]).any (isMarkerFor s) := by
    rw [List.any_append]
    simp [isMarkerFor]
  rw [if_pos hany', takeWhile_append_of_not_any q _ h]
  have : ([Message.marker s].takeWhile (fun x => ! isMarkerFor s x)) = [] := by
    simp [List.takeWhile_cons, isMarkerFor]
  rw [this, List.append_nil]

theorem preCut_no_marker (s : Int) (st : Bool) (q : List Message)
    (h : markerCount s q = 0) :
    preCut s st q = if st then 0 else tokSum q := by
  unfold preCut
  rw [if_neg (fun hc => (any_iff_markerCount s q).mp hc h)]

theorem preCut_cons_token (s : Int) (st : Bool) (n : Int) (q : List Message) :
    preCut s st (Message.token n :: q) =
      (if q.any (isMarkerFor s) ∨ st = false then n else 0) + preCut s st q := by
  unfold preCut
  have htm : isMarkerFor s (Message.token n) = false := rfl
  by_cases hany : q.any (isMarkerFor s)
  · have hany' : (Message.token n :: q).any (isMarkerFor s) := by
      rw [List.any_cons]; simp [hany]
    rw [if_pos hany', if_pos hany]
    rw [List.takeWhile_cons]
    simp only [htm, Bool.not_false, if_true]
    simp [hany, tokSum, payload]
  · have hany' : ¬ (Message.token n :: q).any (isMarkerFor s) := by
      rw [List.any_cons]; simp [hany, htm]
    rw [if_neg hany', if_neg hany]
    cases st with
    | true => simp [hany]
    | false =>
        simp only [hany, false_or, if_pos rfl]
        simp [tokSum, payload]

theorem preCut_cons_marker_self (s : Int) (st : Bool) (q : List Message) :
    preCut s st (Message.marker s :: q) = 0 := by
  unfold preCut
  have hm : isMarkerFor s (Message.marker s) = true := by simp [isMarkerFor]
  have hany : (Message.marker s :: q).any (isMarkerFor s) := by
    rw [List.any_cons]; simp [hm]
  rw [if_pos hany, List.takeWhile_cons]
  simp [hm, tokSum]

theorem preCut_cons_marker_ne (s sid : Int) (hne : sid ≠ s) (st : Bool)
    (q : List Message) :
    preCut s st (Message.marker sid :: q) = preCut s st q := by
  unfold preCut
  have hm : isMarkerFor s (Message.marker sid) = false := by simp [isMarkerFor, hne]
  have hiff : (Message.marker sid :: q).any (isMarkerFor s) = q.any (isMarkerFor s) := by
    rw [List.any_cons, hm, Bool.false_or]
  by_cases hany : q.any (isMarkerFor s)
  · rw [hiff, if_pos hany, if_pos hany, List.takeWhile_cons]
    simp [hm, tokSum, payload]
  · rw [hiff, if_neg hany, if_neg hany]
    have ht : tokSum (Message.marker sid :: q) = tokSum q := by
      simp [tokSum, payload]
    rw [ht]

/-! ## Sum lemmas over association lists and server lists -/

theorem sum_aset {α : Type} (g : α → Int) (k : String) (w : α) :
    ∀ (m : List (String × α)) (v : α), alookup k m = some v →
    ((aset k w m).map (fun kv => g kv.2)).sum =
      (m.map (fun kv => g kv.2)).sum - g v + g w := by
  intro m
  induction m with
  | nil => intro v hv; simp [alookup] at hv
  | cons kv rest ih =>
      intro v hv
      obtain ⟨k', v'⟩ := kv
      by_cases h : k = k'
      · subst h
        simp only [alookup, if_true, eq_self_iff_true, Option.some.injEq] at hv
        subst hv
        simp [aset]
        ring
      · simp only [alookup, if_neg h] at hv
        simp [aset, h, ih v hv]
        ring

theorem sum_amodify {α : Type} (g : α → Int) (k : String) (f : α → α) :
    ∀ (m : List (String × α)) (v : α), alookup k m = some v →
    ((amodify k f m).map (fun kv => g kv.2)).sum =
      (m.map (fun kv => g kv.2)).sum - g v + g (f v) := by
  intro m
  induction m with
  | nil => intro v hv; simp [alookup] at hv
  | cons kv rest ih =>
      intro v hv
      obtain ⟨k', v'⟩ := kv
      by_cases h : k = k'
      · subst h
        simp only [alookup, if_true, eq_self_iff_true, Option.some.injEq] at hv
        subst hv
        simp [amodify]
        ring
      · simp only [alookup, if_neg h] at hv
        simp [amodify, h, ih v hv]
        ring

/-! ## Lemmas about updServer -/

theorem ids_updServer (sys : List Server) (p' : Server) :
    (updServer sys p').map Server.id = sys.map Server.id := by
  unfold updServer
  rw [List.map_map]
  apply List.map_congr_left
  intro q _
  by_cases h : q.id = p'.id
  · simp [Function.comp, h]
  · simp [Function.comp, h]

theorem mem_updServer_of_ne {sys : List Server} {p' q : Server}
    (hq : q ∈ sys) (h : q.id ≠ p'.id) : q ∈ updServer sys p' := by
  unfold updServer
  exact List.mem_map.mpr ⟨q, hq, by rw [if_neg h]⟩

theorem mem_updServer_self {sys : List Server} {p' q : Server}
    (hq : q ∈ sys) (h : q.id = p'.id) : p' ∈ updServer sys p' := by
  unfold updServer
  exact List.mem_map.mpr ⟨q, hq, by rw [if_pos h]⟩

theorem mem_updServer_iff {sys : List Server} {p' q' : Server} :
    q' ∈ updServer sys p' ↔ ∃ q ∈ sys, q' = if q.id = p'.id then p' else q := by
  unfold updServer
  rw [List.mem_map]
  constructor
  · rintro ⟨q, hq, h⟩
    exact ⟨q, hq, h.symm⟩
  · rintro ⟨q, hq, h⟩
    exact ⟨q, hq, h.symm⟩

theorem sum_updServer (f : Server → Int) :
    ∀ (sys : List Server) (p p' : Server), p ∈ sys → p'.id = p.id →
    (sys.map Server.id).Nodup →
    ((updServer sys p').map f).sum = (sys.map f).sum - f p + f p' := by
  intro sys
  induction sys with
  | nil => intro p p' h _ _; cases h
  | cons r sys ih =>
      intro p p' hmem hid hnd
      rw [List.map_cons, List.nodup_cons] at hnd
      rcases List.mem_cons.mp hmem with rfl | hmem'
      · have hupd : updServer (p :: sys) p' = p' :: sys := by
          unfold updServer
          rw [List.map_cons, if_pos hid.symm]
          congr 1
          have hall : ∀ q ∈ sys, (if q.id = p'.id then p' else q) = q := by
            intro q hq
            rw [if_neg]
            intro hc
            rw [hid] at hc
            exact hnd.1 (hc ▸ List.mem_map.mpr ⟨q, hq, rfl⟩)
          calc sys.map (fun q => if q.id = p'.id then p' else q)
              = sys.map id := List.map_congr_left hall
            _ = sys := List.map_id sys
        rw [hupd]
        simp only [List.map_cons, List.sum_cons]
        ring
      · have hrne : r.id ≠ p'.id := by
          rw [hid]
          intro hc
          exact hnd.1 (hc ▸ List.mem_map.mpr ⟨p, hmem', rfl⟩)
        have hupd : updServer (r :: sys) p' = r :: updServer sys p' := by
          unfold updServer
          rw [List.map_cons, if_neg hrne]
        rw [hupd]
        simp only [List.map_cons, List.sum_cons, ih p p' hmem' hid hnd.2]
        ring

/-! ## Per-operation effect on the conserved quantity -/

theorem sendTokens_ok_inv {a s' : Server} {n : Int} {dest : String}
    (h : (SendTokens a n dest).1 = SendResult.ok s') :
    ¬ a.tokens < n ∧ ∃ q, alookup dest a.outboundLinks = some q ∧
      s' = { a with
               tokens := a.tokens - n
               outboundLinks :=
                 amodify dest (fun q0 => q0 ++ [Message.token n]) a.outboundLinks } := by
  by_cases h1 : a.tokens < n
  · simp only [SendTokens, if_pos h1] at h
    cases h
  · refine ⟨h1, ?_⟩
    simp only [SendTokens, if_neg h1] at h
    rcases halo : alookup dest a.outboundLinks with _ | q
    · rw [show alookup dest ({ a with tokens := a.tokens - n } : Server).outboundLinks =
        none from halo] at h
      cases h
    · rw [show alookup dest ({ a with tokens := a.tokens - n } : Server).outboundLinks =
        some q from halo] at h
      exact ⟨q, rfl, (SendResult.ok.injEq _ _).mp h.symm⟩

theorem contrib_mk (p : Server) (t : Int) (ol : List (String × List Message)) (s : Int) :
    contrib s { p with tokens := t, outboundLinks := ol } =
      if s ∈ p.receivedSnapshot then contrib s p else t := by
  unfold contrib recContrib
  by_cases h : s ∈ p.receivedSnapshot <;> simp [h]

theorem chanSum_mk_amodify (p : Server) (t : Int) (dest : String)
    (f : List Message → List Message) (q : List Message) (s : Int)
    (hq : alookup dest p.outboundLinks = some q) :
    chanSum s { p with
        tokens := t
        outboundLinks := amodify dest f p.outboundLinks } =
      chanSum s p - preCut s (decide (s ∈ p.receivedSnapshot)) q +
        preCut s (decide (s ∈ p.receivedSnapshot)) (f q) := by
  unfold chanSum
  exact sum_amodify (preCut s (decide (s ∈ p.receivedSnapshot))) dest f p.outboundLinks q hq

theorem chanSum_mk_aset (p : Server) (dest : String) (w q : List Message) (s : Int)
    (hq : alookup dest p.outboundLinks = some q) :
    chanSum s { p with outboundLinks := aset dest w p.outboundLinks } =
      chanSum s p - preCut s (decide (s ∈ p.receivedSnapshot)) q +
        preCut s (decide (s ∈ p.receivedSnapshot)) w := by
  unfold chanSum
  exact sum_aset (preCut s (decide (s ∈ p.receivedSnapshot))) dest w p.outboundLinks q hq

theorem recContrib_eq (p : Server) (s : Int) (st : SnapshotState)
    (h : ilookup s p.snapshot = some st) :
    recContrib s p = (alookup p.id st.tokens).getD 0 + msgSum st.messages := by
  unfold recContrib
  rw [h]

theorem recContrib_none (p : Server) (s : Int) (h : ilookup s p.snapshot = none) :
    recContrib s p = 0 := by
  unfold recContrib
  rw [h]

theorem contrib_startSnapshot_self (p : Server) (s : Int)
    (hnd : (p.outboundLinks.map Prod.fst).Nodup) :
    contrib s (StartSnapshot p s).1 = p.tokens := by
  rw [startSnapshot_state p s hnd]
  unfold contrib
  rw [if_pos (mem_addIfAbsent_self s p.receivedSnapshot)]
  rw [recContrib_eq _ s { id := s, tokens := [(p.id, p.tokens)], messages := [] }
    (by exact ilookup_iset_self s _ p.snapshot)]
  simp [alookup, msgSum]

theorem contrib_startSnapshot_ne (p : Server) (s sid : Int) (hne : sid ≠ s)
    (hnd : (p.outboundLinks.map Prod.fst).Nodup) :
    contrib s (StartSnapshot p sid).1 = contrib s p := by
  rw [startSnapshot_state p sid hnd]
  unfold contrib
  have hmem : s ∈ addIfAbsent sid p.receivedSnapshot ↔ s ∈ p.receivedSnapshot := by
    rw [mem_addIfAbsent]
    constructor
    · rintro (h | h)
      · exact absurd h.symm hne
      · exact h
    · exact Or.inr
  have hlook : ilookup s (iset sid
      ({ id := sid, tokens := [(p.id, p.tokens)], messages := [] } : SnapshotState)
      p.snapshot) = ilookup s p.snapshot :=
    ilookup_iset_ne (Ne.symm hne) _ _
  by_cases h : s ∈ p.receivedSnapshot
  · rw [if_pos (hmem.mpr h), if_pos h]
    rcases hsnap : ilookup s p.snapshot with _ | st
    · rw [recContrib_none _ s (by exact hlook.trans hsnap),
        recContrib_none _ s hsnap]
    · rw [recContrib_eq _ s st (by exact hlook.trans hsnap),
        recContrib_eq _ s st hsnap]
  · rw [if_neg (fun hc => h (hmem.mp hc)), if_neg h]

theorem chanSum_startSnapshot_ne (p : Server) (s sid : Int) (hne : sid ≠ s)
    (hnd : (p.outboundLinks.map Prod.fst).Nodup) :
    chanSum s (StartSnapshot p sid).1 = chanSum s p := by
  rw [startSnapshot_state p sid hnd]
  unfold chanSum
  have hmem : s ∈ addIfAbsent sid p.receivedSnapshot ↔ s ∈ p.receivedSnapshot := by
    rw [mem_addIfAbsent]
    constructor
    · rintro (h | h)
      · exact absurd h.symm hne
      · exact h
    · exact Or.inr
  have hdec : decide (s ∈ addIfAbsent sid p.receivedSnapshot) =
      decide (s ∈ p.receivedSnapshot) := decide_eq_decide.mpr hmem
  show ((p.outboundLinks.map (fun kv => (kv.1, kv.2 ++ [Message.marker sid]))).map
    (fun kv => preCut s (decide (s ∈ addIfAbsent sid p.receivedSnapshot)) kv.2)).sum = _
  rw [List.map_map]
  apply congrArg
  apply List.map_congr_left
  intro kv _
  show preCut s _ (kv.2 ++ [Message.marker sid]) = _
  rw [hdec, preCut_append_marker_ne s sid hne]

theorem chanSum_startSnapshot_self (p : Server) (s : Int)
    (hns : s ∉ p.receivedSnapshot)
    (hq0 : ∀ kv ∈ p.outboundLinks, markerCount s kv.2 = 0)
    (hnd : (p.outboundLinks.map Prod.fst).Nodup) :
    chanSum s (StartSnapshot p s).1 = chanSum s p := by
  rw [startSnapshot_state p s hnd]
  unfold chanSum
  have hdec : decide (s ∈ addIfAbsent s p.receivedSnapshot) = true := by
    rw [decide_eq_true_eq]
    exact mem_addIfAbsent_self s p.receivedSnapshot
  have hdec0 : decide (s ∈ p.receivedSnapshot) = false := by
    rw [decide_eq_false_iff_not]
    exact hns
  show ((p.outboundLinks.map (fun kv => (kv.1, kv.2 ++ [Message.marker s]))).map
    (fun kv => preCut s (decide (s ∈ addIfAbsent s p.receivedSnapshot)) kv.2)).sum = _
  rw [List.map_map]
  apply congrArg
  apply List.map_congr_left
  intro kv hkv
  have hany : ¬ kv.2.any (isMarkerFor s) :=
    fun hc => (any_iff_markerCount s kv.2).mp hc (hq0 kv hkv)
  show preCut s _ (kv.2 ++ [Message.marker s]) = _
  rw [hdec, hdec0, preCut_append_marker_self s true kv.2 hany,
    preCut_no_marker s false kv.2 (hq0 kv hkv)]
  rfl

theorem msgSum_append (l : List SnapshotMessage) (sm : SnapshotMessage) :
    msgSum (l ++ [sm]) = msgSum l + payload sm.message := by
  simp [msgSum]

theorem contrib_handleToken (b : Server) (src : String) (n : Int) (s : Int)
    (hnd : b.receivedSnapshot.Nodup)
    (hrec : s ∈ b.receivedSnapshot → (ilookup s b.snapshot).isSome) :
    contrib s (handleToken b src n).1 =
      contrib s b + (if s ∈ b.receivedSnapshot ∧ src ∈ seenOf b s then 0 else n) := by
  obtain ⟨sn, hsn⟩ := handleToken_shape b src n
  have hlk := handleToken_lookup b src n s hnd
  rw [hsn] at hlk ⊢
  show (if s ∈ b.receivedSnapshot
    then recContrib s { b with tokens := b.tokens + n, snapshot := sn }
    else b.tokens + n) = _
  by_cases hmem : s ∈ b.receivedSnapshot
  · rw [if_pos hmem]
    rcases Option.isSome_iff_exists.mp (hrec hmem) with ⟨st, hst⟩
    by_cases hcap : src ∈ seenOf b s
    · have hsn' : ilookup s sn = some st := by
        have := hlk
        rw [if_neg (fun hand => hand.2 hcap)] at this
        exact this.trans hst
      rw [recContrib_eq _ s st (by exact hsn')]
      rw [if_pos ⟨hmem, hcap⟩]
      unfold contrib
      rw [if_pos hmem, recContrib_eq b s st hst]
      ring
    · have hsn' : ilookup s sn = some
          { st with messages := st.messages ++
              [{ src := src, dest := b.id, message := Message.token n }] } := by
        have := hlk
        rw [if_pos ⟨hmem, hcap⟩, hst] at this
        exact this
      rw [recContrib_eq _ s _ (by exact hsn')]
      rw [if_neg (fun hand => hcap hand.2)]
      unfold contrib
      rw [if_pos hmem, recContrib_eq b s st hst]
      show (alookup b.id st.tokens).getD 0 + msgSum (st.messages ++ _) = _
      rw [msgSum_append]
      show _ + (_ + payload (Message.token n)) = _
      unfold payload
      ring
  · rw [if_neg hmem, if_neg (fun hand => hmem hand.1)]
    unfold contrib
    rw [if_neg hmem]

theorem chanSum_handleToken (b : Server) (src : String) (n : Int) (s : Int) :
    chanSum s (handleToken b src n).1 = chanSum s b := by
  obtain ⟨sn, hsn⟩ := handleToken_shape b src n
  rw [hsn]
  rfl

theorem contrib_handleMarker_started (b : Server) (src : String) (sid s : Int)
    (h : sid ∈ b.receivedSnapshot) :
    contrib s (handleMarker b src sid).1 = contrib s b := by
  rw [handleMarker_state_started b src sid h]
  rfl

theorem chanSum_handleMarker_started (b : Server) (src : String) (sid s : Int)
    (h : sid ∈ b.receivedSnapshot) :
    chanSum s (handleMarker b src sid).1 = chanSum s b := by
  rw [handleMarker_state_started b src sid h]
  rfl

theorem contrib_handleMarker_not_started_ne (b : Server) (src : String) (sid s : Int)
    (h : sid ∉ b.receivedSnapshot) (hne : sid ≠ s)
    (hnd : (b.outboundLinks.map Prod.fst).Nodup) :
    contrib s (handleMarker b src sid).1 = contrib s b := by
  rw [handleMarker_state_not_started b src sid h]
  show contrib s (StartSnapshot b sid).1 = contrib s b
  exact contrib_startSnapshot_ne b s sid hne hnd

theorem contrib_handleMarker_not_started_self (b : Server) (src : String) (s : Int)
    (h : s ∉ b.receivedSnapshot)
    (hnd : (b.outboundLinks.map Prod.fst).Nodup) :
    contrib s (handleMarker b src s).1 = b.tokens := by
  rw [handleMarker_state_not_started b src s h]
  show contrib s (StartSnapshot b s).1 = b.tokens
  exact contrib_startSnapshot_self b s hnd

theorem chanSum_handleMarker_not_started_ne (b : Server) (src : String) (sid s : Int)
    (h : sid ∉ b.receivedSnapshot) (hne : sid ≠ s)
    (hnd : (b.outboundLinks.map Prod.fst).Nodup) :
    chanSum s (handleMarker b src sid).1 = chanSum s b := by
  rw [handleMarker_state_not_started b src sid h]
  show chanSum s (StartSnapshot b sid).1 = chanSum s b
  exact chanSum_startSnapshot_ne b s sid hne hnd

theorem chanSum_handleMarker_not_started_self (b : Server) (src : String) (s : Int)
    (h : s ∉ b.receivedSnapshot)
    (hq0 : ∀ kv ∈ b.outboundLinks, markerCount s kv.2 = 0)
    (hnd : (b.outboundLinks.map Prod.fst).Nodup) :
    chanSum s (handleMarker b src s).1 = chanSum s b := by
  rw [handleMarker_state_not_started b src s h]
  show chanSum s (StartSnapshot b s).1 = chanSum s b
  exact chanSum_startSnapshot_self b s h hq0 hnd

/-! ## Step-preservation infrastructure -/

theorem alookup_map_append (k : String) (msg : Message) :
    ∀ (m : List (String × List Message)),
    alookup k (m.map (fun kv => (kv.1, kv.2 ++ [msg]))) =
      (alookup k m).map (fun q0 => q0 ++ [msg]) := by
  intro m
  induction m with
  | nil => simp [alookup]
  | cons kv rest ih =>
      obtain ⟨k', v⟩ := kv
      by_cases h : k = k' <;> simp [alookup, h, ih]

theorem eq_of_mem_of_same_id {sys : List Server} (hnd : (sys.map Server.id).Nodup) :
    ∀ {q1 q2 : Server}, q1 ∈ sys → q2 ∈ sys → q1.id = q2.id → q1 = q2 := by
  induction sys with
  | nil => intro q1 q2 h; cases h
  | cons r sys ih =>
      intro q1 q2 h1 h2 hid
      rw [List.map_cons, List.nodup_cons] at hnd
      rcases List.mem_cons.mp h1 with rfl | h1' <;>
        rcases List.mem_cons.mp h2 with rfl | h2'
      · rfl
      · exact absurd (hid ▸ List.mem_map.mpr ⟨q2, h2', rfl⟩) hnd.1
      · exact absurd (hid ▸ List.mem_map.mpr ⟨q1, h1', rfl⟩) hnd.1
      · exact ih hnd.2 h1' h2' hid

theorem exists_same_id_updServer {sys : List Server} (p' : Server) :
    ∀ t ∈ sys, ∃ t' ∈ updServer sys p', t'.id = t.id := by
  intro t ht
  by_cases h : t.id = p'.id
  · exact ⟨p', mem_updServer_self ht h, h.symm⟩
  · exact ⟨t, mem_updServer_of_ne ht h, rfl⟩

theorem WF_updServer {sys : List Server} {p p' : Server} (hwf : WF sys)
    (hmem : p ∈ sys) (hid : p'.id = p.id)
    (hkeys : p'.outboundLinks.map Prod.fst = p.outboundLinks.map Prod.fst)
    (hinb : p'.inboundLinks = p.inboundLinks)
    (hrcv : p'.receivedSnapshot.Nodup) :
    WF (updServer sys p') := by
  have horig : ∀ q' ∈ updServer sys p',
      ∃ r ∈ sys, q' = if r.id = p'.id then p' else r := fun q' h =>
    mem_updServer_iff.mp h
  constructor
  · rw [ids_updServer]
    exact hwf.nodupIds
  · intro q' hq'
    rcases horig q' hq' with ⟨r, hr, rfl⟩
    by_cases h : r.id = p'.id
    · rw [if_pos h, hkeys]
      exact hwf.outKeysNodup p hmem
    · rw [if_neg h]
      exact hwf.outKeysNodup r hr
  · intro q' hq'
    rcases horig q' hq' with ⟨r, hr, rfl⟩
    by_cases h : r.id = p'.id
    · rw [if_pos h, hkeys, hid]
      exact hwf.noSelf p hmem
    · rw [if_neg h]
      exact hwf.noSelf r hr
  · intro q' hq' k hk
    rcases horig q' hq' with ⟨r, hr, rfl⟩
    have hk' : ∃ t ∈ sys, t.id = k := by
      by_cases h : r.id = p'.id
      · rw [if_pos h, hkeys] at hk
        exact hwf.closed p hmem k hk
      · rw [if_neg h] at hk
        exact hwf.closed r hr k hk
    rcases hk' with ⟨t, ht, rfl⟩
    exact exists_same_id_updServer p' t ht
  · intro q' hq' t' ht'
    rcases horig q' hq' with ⟨r, hr, rfl⟩
    rcases horig t' ht' with ⟨u, hu, rfl⟩
    have hq'id : (if r.id = p'.id then p' else r).id = r.id := by
      by_cases h : r.id = p'.id
      · rw [if_pos h]
        exact h.symm
      · rw [if_neg h]
    have hq'keys : (if r.id = p'.id then p' else r).outboundLinks.map Prod.fst =
        r.outboundLinks.map Prod.fst := by
      by_cases h : r.id = p'.id
      · rw [if_pos h, hkeys]
        have : r = p := eq_of_mem_of_same_id hwf.nodupIds hr hmem (h.trans hid)
        rw [this]
      · rw [if_neg h]
    have ht'id : (if u.id = p'.id then p' else u).id = u.id := by
      by_cases h : u.id = p'.id
      · rw [if_pos h]
        exact h.symm
      · rw [if_neg h]
    have ht'inb : (if u.id = p'.id then p' else u).inboundLinks = u.inboundLinks := by
      by_cases h : u.id = p'.id
      · rw [if_pos h, hinb]
        have : u = p := eq_of_mem_of_same_id hwf.nodupIds hu hmem (h.trans hid)
        rw [this]
      · rw [if_neg h]
    rw [hq'id, ht'id, ht'inb, hq'keys]
    exact hwf.inOut r hr u hu
  · intro q' hq'
    rcases horig q' hq' with ⟨r, hr, rfl⟩
    by_cases h : r.id = p'.id
    · rw [if_pos h]
      exact hrcv
    · rw [if_neg h]
      exact hwf.recvNodup r hr

theorem chan_count_zero_of_not_started {s : Int} {sys : List Server} {a : Server}
    (hwf : WF sys) (hinv : Inv s sys) (ha : a ∈ sys) (hns : s ∉ a.receivedSnapshot) :
    ∀ kv ∈ a.outboundLinks, markerCount s kv.2 = 0 := by
  intro kv hkv
  have hkey : kv.1 ∈ a.outboundLinks.map Prod.fst := List.mem_map.mpr ⟨kv, hkv, rfl⟩
  rcases hwf.closed a ha kv.1 hkey with ⟨t, ht, htid⟩
  have hlk : alookup t.id a.outboundLinks = some kv.2 := by
    rw [htid]
    exact alookup_of_mem_nodup (hwf.outKeysNodup a ha) (by exact hkv)
  exact ((hinv.chan a ha t ht kv.2 hlk).2 hns).1

theorem seenOf_startSnapshot (p : Server) (sid s : Int) :
    seenOf (StartSnapshot p sid).1 s = if sid = s then [] else seenOf p s := by
  unfold seenOf
  rw [startSnapshot_marker]
  by_cases h : sid = s
  · subst h
    rw [ilookup_iset_self]
    simp
  · rw [ilookup_iset_ne (Ne.symm h), if_neg h]

theorem received_startSnapshot_mem (p : Server) (sid s : Int) :
    s ∈ (StartSnapshot p sid).1.receivedSnapshot ↔ (s = sid ∨ s ∈ p.receivedSnapshot) := by
  rw [startSnapshot_received]
  exact mem_addIfAbsent sid s p.receivedSnapshot

theorem seenOf_eq_nil_of_not_started {s : Int} {sys : List Server} {p : Server}
    (hinv : Inv s sys) (hp : p ∈ sys) (hns : s ∉ p.receivedSnapshot) :
    seenOf p s = [] := by
  have h := hinv.started_mk p hp
  have : ilookup s p.inReceivedMarker = none := by
    rcases hl : ilookup s p.inReceivedMarker with _ | l
    · rfl
    · exact absurd (h.mpr (by rw [hl]; rfl)) hns
  unfold seenOf
  rw [this]
  rfl

theorem start_step_preserves (s sid : Int) (sys : List Server) (a : Server)
    (ha : a ∈ sys) (hg : sid ∉ a.receivedSnapshot) (hwf : WF sys) (hinv : Inv s sys) :
    WF (updServer sys (StartSnapshot a sid).1) ∧
    Inv s (updServer sys (StartSnapshot a sid).1) ∧
    accounted s (updServer sys (StartSnapshot a sid).1) = accounted s sys := by
  have hid1 : (StartSnapshot a sid).1.id = a.id := startSnapshot_id a sid
  have hkeys1 : (StartSnapshot a sid).1.outboundLinks.map Prod.fst =
      a.outboundLinks.map Prod.fst := startSnapshot_outKeys a sid
  have hinb1 : (StartSnapshot a sid).1.inboundLinks = a.inboundLinks :=
    startSnapshot_inbound a sid
  have handk : (a.outboundLinks.map Prod.fst).Nodup := hwf.outKeysNodup a ha
  have hstate := startSnapshot_state a sid handk
  have houtb : (StartSnapshot a sid).1.outboundLinks =
      a.outboundLinks.map (fun kv => (kv.1, kv.2 ++ [Message.marker sid])) := by
    rw [hstate]
  refine ⟨WF_updServer hwf ha hid1 hkeys1 hinb1 ?_, ?_, ?_⟩
  · rw [startSnapshot_received]
    exact addIfAbsent_nodup sid (hwf.recvNodup a ha)
  · constructor
    · -- started_rec
      intro q' hq'
      rcases mem_updServer_iff.mp hq' with ⟨r, hr, rfl⟩
      by_cases h : r.id = (StartSnapshot a sid).1.id
      · rw [if_pos h]
        rw [received_startSnapshot_mem, startSnapshot_snapshot]
        by_cases hs : s = sid
        · subst hs
          rw [ilookup_iset_self]
          simp
        · rw [ilookup_iset_ne (fun hc => hs hc)]
          have hra : r = a := eq_of_mem_of_same_id hwf.nodupIds hr ha (h.trans hid1)
          constructor
          · rintro (hc | hc)
            · exact absurd hc hs
            · exact (hinv.started_rec a ha).mp hc
          · intro hc
            exact Or.inr ((hinv.started_rec a ha).mpr hc)
      · rw [if_neg h]
        exact hinv.started_rec r hr
    · -- started_mk
      intro q' hq'
      rcases mem_updServer_iff.mp hq' with ⟨r, hr, rfl⟩
      by_cases h : r.id = (StartSnapshot a sid).1.id
      · rw [if_pos h]
        rw [received_startSnapshot_mem, startSnapshot_marker]
        by_cases hs : s = sid
        · subst hs
          rw [ilookup_iset_self]
          simp
        · rw [ilookup_iset_ne (fun hc => hs hc)]
          constructor
          · rintro (hc | hc)
            · exact absurd hc hs
            · exact (hinv.started_mk a ha).mp hc
          · intro hc
            exact Or.inr ((hinv.started_mk a ha).mpr hc)
      · rw [if_neg h]
        exact hinv.started_mk r hr
    · -- seen_nodup
      intro q' hq'
      rcases mem_updServer_iff.mp hq' with ⟨r, hr, rfl⟩
      by_cases h : r.id = (StartSnapshot a sid).1.id
      · rw [if_pos h, seenOf_startSnapshot]
        by_cases hs : sid = s
        · rw [if_pos hs]
          exact List.nodup_nil
        · rw [if_neg hs]
          exact hinv.seen_nodup a ha
      · rw [if_neg h]
        exact hinv.seen_nodup r hr
    · -- seen_sub
      intro q' hq'
      rcases mem_updServer_iff.mp hq' with ⟨r, hr, rfl⟩
      by_cases h : r.id = (StartSnapshot a sid).1.id
      · rw [if_pos h, seenOf_startSnapshot, hinb1]
        by_cases hs : sid = s
        · rw [if_pos hs]
          intro x hx
          cases hx
        · rw [if_neg hs]
          exact hinv.seen_sub a ha
      · rw [if_neg h]
        exact hinv.seen_sub r hr
    · -- chan
      intro x hx y hy q' hlk'
      rcases mem_updServer_iff.mp hx with ⟨rx, hrx, rfl⟩
      rcases mem_updServer_iff.mp hy with ⟨ry, hry, rfl⟩
      by_cases hxa : rx.id = (StartSnapshot a sid).1.id
      · -- sender is the freshly started server
        rw [if_pos hxa] at hlk' ⊢
        rw [houtb, alookup_map_append] at hlk'
        rcases halo : alookup (if ry.id = (StartSnapshot a sid).1.id
            then (StartSnapshot a sid).1 else ry).id a.outboundLinks with _ | q0
        · rw [halo] at hlk'
          cases hlk'
        · rw [halo] at hlk'
          have hq' : q' = q0 ++ [Message.marker sid] := by
            have := hlk'
            simp only [Option.map_some] at this
            exact (Option.some.injEq _ _).mp this.symm
          subst hq'
          -- the destination cannot be the started server itself (no self-link)
          by_cases hya : ry.id = (StartSnapshot a sid).1.id
          · rw [if_pos hya] at halo ⊢
            rw [hid1] at halo
            exact absurd (alookup_ne_none.mpr (hwf.noSelf a ha))
              (by rw [halo]; intro hc; cases hc)
          · rw [if_neg hya] at halo ⊢
            have holdseen : seenOf ry s = seenOf ry s := rfl
            by_cases hs : sid = s
            · subst hs
              have hmem1 : sid ∈ (StartSnapshot a sid).1.receivedSnapshot :=
                (received_startSnapshot_mem a sid sid).mpr (Or.inl rfl)
              have hold := (hinv.chan a ha ry hry q0 halo).2 hg
              constructor
              · intro _
                rw [markerCount_append_marker, if_pos rfl, hold.1, hid1]
                rw [if_neg hold.2]
              · intro hc
                exact absurd hmem1 hc
            · have hmemiff := received_startSnapshot_mem a sid s
              have hcnt : markerCount s (q0 ++ [Message.marker sid]) = markerCount s q0 := by
                rw [markerCount_append_marker, if_neg hs, Nat.add_zero]
              constructor
              · intro hmem'
                have hsa : s ∈ a.receivedSnapshot := by
                  rcases hmemiff.mp hmem' with hc | hc
                  · exact absurd hc.symm hs
                  · exact hc
                rw [hcnt, hid1]
                exact (hinv.chan a ha ry hry q0 halo).1 hsa
              · intro hmem'
                have hsa : s ∉ a.receivedSnapshot :=
                  fun hc => hmem' (hmemiff.mpr (Or.inr hc))
                rw [hcnt, hid1]
                exact (hinv.chan a ha ry hry q0 halo).2 hsa
      · -- sender untouched
        rw [if_neg hxa] at hlk' ⊢
        by_cases hya : ry.id = (StartSnapshot a sid).1.id
        · -- destination is the started server: its seen set for s is unchanged
          rw [if_pos hya] at hlk' ⊢
          rw [hid1] at hlk'
          have hseen : seenOf (StartSnapshot a sid).1 s = seenOf a s := by
            rw [seenOf_startSnapshot]
            by_cases hs : sid = s
            · rw [if_pos hs, seenOf_eq_nil_of_not_started hinv ha (hs ▸ hg)]
            · rw [if_neg hs]
          rw [hseen]
          exact hinv.chan rx hrx a ha q' hlk'
        · rw [if_neg hya] at hlk' ⊢
          exact hinv.chan rx hrx ry hry q' hlk'
  · -- accounted
    unfold accounted
    rw [sum_updServer (fun p => contrib s p + chanSum s p) sys a
      (StartSnapshot a sid).1 ha hid1 hwf.nodupIds]
    by_cases hs : sid = s
    · subst hs
      rw [contrib_startSnapshot_self a sid handk,
        chanSum_startSnapshot_self a sid hg
          (chan_count_zero_of_not_started hwf hinv ha hg) handk]
      have hc0 : contrib sid a = a.tokens := by
        unfold contrib
        rw [if_neg hg]
      rw [hc0]
      ring
    · rw [contrib_startSnapshot_ne a s sid hs handk,
        chanSum_startSnapshot_ne a s sid hs handk]
      ring

theorem send_step_preserves (s : Int) (sys : List Server) (a s' : Server) (n : Int)
    (dest : String) (ha : a ∈ sys) (hok : (SendTokens a n dest).1 = SendResult.ok s')
    (hwf : WF sys) (hinv : Inv s sys) :
    WF (updServer sys s') ∧ Inv s (updServer sys s') ∧
    accounted s (updServer sys s') = accounted s sys := by
  obtain ⟨hlt, q, halo, hs'⟩ := sendTokens_ok_inv hok
  have hid1 : s'.id = a.id := by rw [hs']
  have hkeys1 : s'.outboundLinks.map Prod.fst = a.outboundLinks.map Prod.fst := by
    rw [hs']
    exact amodify_keys _ _ _
  have hinb1 : s'.inboundLinks = a.inboundLinks := by rw [hs']
  have hrcv1 : s'.receivedSnapshot = a.receivedSnapshot := by rw [hs']
  have hmk1 : s'.inReceivedMarker = a.inReceivedMarker := by rw [hs']
  have hout1 : s'.outboundLinks =
      amodify dest (fun q0 => q0 ++ [Message.token n]) a.outboundLinks := by rw [hs']
  have hseen1 : seenOf s' s = seenOf a s := by
    unfold seenOf
    rw [hmk1]
  refine ⟨WF_updServer hwf ha hid1 hkeys1 hinb1 (hrcv1 ▸ hwf.recvNodup a ha), ?_, ?_⟩
  · constructor
    · intro q' hq'
      rcases mem_updServer_iff.mp hq' with ⟨r, hr, rfl⟩
      by_cases h : r.id = s'.id
      · rw [if_pos h, hrcv1, show s'.snapshot = a.snapshot from by rw [hs']]
        exact hinv.started_rec a ha
      · rw [if_neg h]
        exact hinv.started_rec r hr
    · intro q' hq'
      rcases mem_updServer_iff.mp hq' with ⟨r, hr, rfl⟩
      by_cases h : r.id = s'.id
      · rw [if_pos h, hrcv1, hmk1]
        exact hinv.started_mk a ha
      · rw [if_neg h]
        exact hinv.started_mk r hr
    · intro q' hq'
      rcases mem_updServer_iff.mp hq' with ⟨r, hr, rfl⟩
      by_cases h : r.id = s'.id
      · rw [if_pos h, hseen1]
        exact hinv.seen_nodup a ha
      · rw [if_neg h]
        exact hinv.seen_nodup r hr
    · intro q' hq'
      rcases mem_updServer_iff.mp hq' with ⟨r, hr, rfl⟩
      by_cases h : r.id = s'.id
      · rw [if_pos h, hseen1, hinb1]
        exact hinv.seen_sub a ha
      · rw [if_neg h]
        exact hinv.seen_sub r hr
    · intro x hx y hy q' hlk'
      rcases mem_updServer_iff.mp hx with ⟨rx, hrx, rfl⟩
      rcases mem_updServer_iff.mp hy with ⟨ry, hry, rfl⟩
      by_cases hxs : rx.id = s'.id
      · -- sender is the updated server
        rw [if_pos hxs] at hlk' ⊢
        rw [hout1] at hlk'
        by_cases hys : ry.id = s'.id
        · -- would be a self-link: impossible
          rw [if_pos hys] at hlk'
          rw [hid1] at hlk'
          rw [show alookup a.id (amodify dest (fun q0 => q0 ++ [Message.token n])
            a.outboundLinks) = alookup a.id a.outboundLinks from by
              by_cases hd : a.id = dest
              · rw [hd, alookup_amodify_self, alookup_ne_none.mpr (hd ▸ hwf.noSelf a ha)]
                rfl
              · exact alookup_amodify_ne hd _ _] at hlk'
          exact absurd (alookup_ne_none.mpr (hwf.noSelf a ha))
            (by rw [hlk']; intro hc; cases hc)
        · rw [if_neg hys] at hlk' ⊢
          by_cases hk : ry.id = dest
          · rw [hk, alookup_amodify_self, halo] at hlk'
            have hq' : q' = q ++ [Message.token n] := by
              have h2 : some (q ++ [Message.token n]) = some q' := hlk'
              exact ((Option.some.injEq _ _).mp h2).symm
            subst hq'
            have hold := hinv.chan a ha ry hry q (by rw [hk]; exact halo)
            rw [hrcv1, hid1, markerCount_append_token]
            exact hold
          · rw [alookup_amodify_ne hk] at hlk'
            rw [hrcv1, hid1]
            exact hinv.chan a ha ry hry q' hlk'
      · -- sender untouched
        rw [if_neg hxs] at hlk' ⊢
        by_cases hys : ry.id = s'.id
        · rw [if_pos hys] at hlk' ⊢
          rw [hid1] at hlk'
          rw [hseen1]
          exact hinv.chan rx hrx a ha q' hlk'
        · rw [if_neg hys] at hlk' ⊢
          exact hinv.chan rx hrx ry hry q' hlk'
  · unfold accounted
    rw [sum_updServer (fun p => contrib s p + chanSum s p) sys a s' ha hid1 hwf.nodupIds]
    rw [hs', contrib_mk a (a.tokens - n)
        (amodify dest (fun q0 => q0 ++ [Message.token n]) a.outboundLinks) s,
      chanSum_mk_amodify a (a.tokens - n) dest _ q s halo,
      preCut_append_token]
    have hcnt : markerCount s q = 0 ∨ s ∈ a.receivedSnapshot := by
      by_cases hmem : s ∈ a.receivedSnapshot
      · exact Or.inr hmem
      · exact Or.inl (chan_count_zero_of_not_started hwf hinv ha hmem (dest, q)
          (alookup_mem halo))
    by_cases hmem : s ∈ a.receivedSnapshot
    · rw [if_pos hmem]
      rw [if_pos (Or.inr (by rw [decide_eq_true_eq]; exact hmem))]
      ring
    · rw [if_neg hmem]
      have hany : ¬ (q.any (isMarkerFor s) ∨ decide (s ∈ a.receivedSnapshot) = true) := by
        rintro (hc | hc)
        · rcases hcnt with h0 | h0
          · exact (any_iff_markerCount s q).mp hc h0
          · exact hmem h0
        · rw [decide_eq_true_eq] at hc
          exact hmem hc
      rw [if_neg hany]
      have hc0 : contrib s a = a.tokens := by
        unfold contrib
        rw [if_neg hmem]
      rw [hc0]
      ring

theorem handleMarker_outKeys (p : Server) (src : String) (sid : Int) :
    (handleMarker p src sid).1.outboundLinks.map Prod.fst =
      p.outboundLinks.map Prod.fst := by
  by_cases h : sid ∈ p.receivedSnapshot
  · rw [handleMarker_state_started p src sid h]
  · rw [handleMarker_state_not_started p src sid h]
    exact startSnapshot_outKeys p sid

theorem handleMarker_snapshot_started (p : Server) (src : String) (sid : Int)
    (h : sid ∈ p.receivedSnapshot) :
    (handleMarker p src sid).1.snapshot = p.snapshot := by
  rw [handleMarker_state_started p src sid h]

theorem handleMarker_snapshot_not_started (p : Server) (src : String) (sid : Int)
    (h : sid ∉ p.receivedSnapshot) :
    (handleMarker p src sid).1.snapshot =
      iset sid { id := sid, tokens := [(p.id, p.tokens)], messages := [] } p.snapshot := by
  rw [handleMarker_state_not_started p src sid h]
  exact startSnapshot_snapshot p sid

theorem handleMarker_tokens_eq (p : Server) (src : String) (sid : Int) :
    (handleMarker p src sid).1.tokens = p.tokens := hm_tokens p src sid

theorem handlePacket_id (p : Server) (src : String) (m : Message) :
    (HandlePacket p src m).1.id = p.id := by
  match m with
  | .marker sid => exact handleMarker_id p src sid
  | .token n =>
      show (handleToken p src n).1.id = p.id
      obtain ⟨sn, hsn⟩ := handleToken_shape p src n
      rw [hsn]

theorem handlePacket_inbound (p : Server) (src : String) (m : Message) :
    (HandlePacket p src m).1.inboundLinks = p.inboundLinks := by
  match m with
  | .marker sid => exact handleMarker_inbound p src sid
  | .token n =>
      show (handleToken p src n).1.inboundLinks = p.inboundLinks
      obtain ⟨sn, hsn⟩ := handleToken_shape p src n
      rw [hsn]

theorem handlePacket_outKeys (p : Server) (src : String) (m : Message) :
    (HandlePacket p src m).1.outboundLinks.map Prod.fst =
      p.outboundLinks.map Prod.fst := by
  match m with
  | .marker sid => exact handleMarker_outKeys p src sid
  | .token n =>
      show (handleToken p src n).1.outboundLinks.map Prod.fst = _
      obtain ⟨sn, hsn⟩ := handleToken_shape p src n
      rw [hsn]

theorem handlePacket_received_nodup (p : Server) (src : String) (m : Message)
    (h : p.receivedSnapshot.Nodup) :
    (HandlePacket p src m).1.receivedSnapshot.Nodup := by
  match m with
  | .marker sid =>
      show (handleMarker p src sid).1.receivedSnapshot.Nodup
      rw [handleMarker_received]
      by_cases hs : sid ∈ p.receivedSnapshot
      · rw [if_pos hs]; exact h
      · rw [if_neg hs]; exact addIfAbsent_nodup sid h
  | .token n =>
      show (handleToken p src n).1.receivedSnapshot.Nodup
      obtain ⟨sn, hsn⟩ := handleToken_shape p src n
      rw [hsn]
      exact h

theorem mem_seen_started {s : Int} {sys : List Server} {b : Server} {x : String}
    (hinv : Inv s sys) (hb : b ∈ sys) (hx : x ∈ seenOf b s) :
    s ∈ b.receivedSnapshot := by
  apply (hinv.started_mk b hb).mpr
  unfold seenOf at hx
  rcases hl : ilookup s b.inReceivedMarker with _ | l
  · rw [hl] at hx
    cases hx
  · rfl

theorem mem_upd2 {sys : List Server} {aP bP : Server} (hne : aP.id ≠ bP.id) :
    ∀ q'' ∈ updServer (updServer sys aP) bP,
    ∃ r ∈ sys, q'' = (if r.id = bP.id then bP else if r.id = aP.id then aP else r) := by
  intro q'' hq''
  rcases mem_updServer_iff.mp hq'' with ⟨r1, hr1, rfl⟩
  rcases mem_updServer_iff.mp hr1 with ⟨r0, hr0, rfl⟩
  refine ⟨r0, hr0, ?_⟩
  by_cases h0 : r0.id = aP.id
  · by_cases h1 : r0.id = bP.id
    · exact absurd (h0.symm.trans h1) hne
    · simp [h0, h1, hne]
  · by_cases h1 : r0.id = bP.id
    · simp [h0, h1, Ne.symm hne]
    · simp [h0, h1]

theorem deliver_token_step_preserves (s : Int) (sys : List Server) (a b : Server)
    (n : Int) (q : List Message) (ha : a ∈ sys) (hb : b ∈ sys)
    (hab : alookup b.id a.outboundLinks = some (Message.token n :: q))
    (hwf : WF sys) (hinv : Inv s sys) :
    WF (updServer (updServer sys { a with outboundLinks := aset b.id q a.outboundLinks })
        (HandlePacket b a.id (Message.token n)).1) ∧
    Inv s (updServer (updServer sys { a with outboundLinks := aset b.id q a.outboundLinks })
        (HandlePacket b a.id (Message.token n)).1) ∧
    accounted s (updServer (updServer sys
        { a with outboundLinks := aset b.id q a.outboundLinks })
        (HandlePacket b a.id (Message.token n)).1) = accounted s sys := by
  have hba : b.id ≠ a.id := by
    intro hc
    exact hwf.noSelf a ha
      (hc ▸ List.mem_map.mpr ⟨(b.id, Message.token n :: q), alookup_mem hab, rfl⟩)
  set aP : Server := { a with outboundLinks := aset b.id q a.outboundLinks } with haP
  set bP : Server := (HandlePacket b a.id (Message.token n)).1 with hbP
  obtain ⟨sn, hsn⟩ := handleToken_shape b a.id n
  have hbPdef : bP = { b with tokens := b.tokens + n, snapshot := sn } := by
    rw [hbP]
    show (handleToken b a.id n).1 = _
    rw [hsn]
  have haid2 : aP.id = a.id := by rw [haP]
  have hbid2 : bP.id = b.id := by rw [hbPdef]
  have hneP : aP.id ≠ bP.id := by
    rw [haid2, hbid2]
    exact Ne.symm hba
  have haPout : aP.outboundLinks = aset b.id q a.outboundLinks := by rw [haP]
  have haPkeys : aP.outboundLinks.map Prod.fst = a.outboundLinks.map Prod.fst := by
    rw [haPout]
    exact aset_keys_of_lookup _ hab
  have haPinb : aP.inboundLinks = a.inboundLinks := by rw [haP]
  have haPrcv : aP.receivedSnapshot = a.receivedSnapshot := by rw [haP]
  have haPmk : aP.inReceivedMarker = a.inReceivedMarker := by rw [haP]
  have haPsn : aP.snapshot = a.snapshot := by rw [haP]
  have haPseen : seenOf aP s = seenOf a s := by
    unfold seenOf
    rw [haPmk]
  have hbPrcv : bP.receivedSnapshot = b.receivedSnapshot := by rw [hbPdef]
  have hbPmk : bP.inReceivedMarker = b.inReceivedMarker := by rw [hbPdef]
  have hbPout : bP.outboundLinks = b.outboundLinks := by rw [hbPdef]
  have hbPinb : bP.inboundLinks = b.inboundLinks := by rw [hbPdef]
  have hbPseen : seenOf bP s = seenOf b s := by
    unfold seenOf
    rw [hbPmk]
  have hbPlook : ∀ t, ilookup t bP.snapshot =
      (if t ∈ b.receivedSnapshot ∧ a.id ∉ seenOf b t then
        (ilookup t b.snapshot).map
          (fun st => { st with
            messages := st.messages ++
              [{ src := a.id, dest := b.id, message := Message.token n }] })
       else ilookup t b.snapshot) := fun t => by
    rw [hbP]
    exact handleToken_lookup b a.id n t (hwf.recvNodup b hb)
  have hbmem1 : b ∈ updServer sys aP :=
    mem_updServer_of_ne hb (by rw [haid2]; exact hba)
  have hnd1 : ((updServer sys aP).map Server.id).Nodup := by
    rw [ids_updServer]
    exact hwf.nodupIds
  have hwf1 : WF (updServer sys aP) :=
    WF_updServer hwf ha haid2 haPkeys haPinb (by rw [haPrcv]; exact hwf.recvNodup a ha)
  have hcntc : markerCount s (Message.token n :: q) = markerCount s q := by
    rw [markerCount_cons]
    simp [isMarkerFor]
  refine ⟨WF_updServer hwf1 hbmem1 hbid2 (by rw [hbPout]) (by rw [hbPinb])
    (by rw [hbPrcv]; exact hwf.recvNodup b hb), ?_, ?_⟩
  · constructor
    · -- started_rec
      intro q'' hq''
      rcases mem_upd2 hneP q'' hq'' with ⟨r, hr, rfl⟩
      by_cases h1 : r.id = bP.id
      · rw [if_pos h1, hbPrcv, hbPlook s]
        by_cases hmem : s ∈ b.receivedSnapshot
        · by_cases hseen' : a.id ∈ seenOf b s
          · rw [if_neg (fun hand => hand.2 hseen')]
            exact hinv.started_rec b hb
          · rw [if_pos ⟨hmem, hseen'⟩]
            rcases Option.isSome_iff_exists.mp ((hinv.started_rec b hb).mp hmem) with ⟨st, hst⟩
            rw [hst]
            simp [hmem]
        · rw [if_neg (fun hand => hmem hand.1)]
          exact hinv.started_rec b hb
      · by_cases h2 : r.id = aP.id
        · rw [if_neg h1, if_pos h2, haPrcv, haPsn]
          exact hinv.started_rec a ha
        · rw [if_neg h1, if_neg h2]
          exact hinv.started_rec r hr
    · -- started_mk
      intro q'' hq''
      rcases mem_upd2 hneP q'' hq'' with ⟨r, hr, rfl⟩
      by_cases h1 : r.id = bP.id
      · rw [if_pos h1, hbPrcv, hbPmk]
        exact hinv.started_mk b hb
      · by_cases h2 : r.id = aP.id
        · rw [if_neg h1, if_pos h2, haPrcv, haPmk]
          exact hinv.started_mk a ha
        · rw [if_neg h1, if_neg h2]
          exact hinv.started_mk r hr
    · -- seen_nodup
      intro q'' hq''
      rcases mem_upd2 hneP q'' hq'' with ⟨r, hr, rfl⟩
      by_cases h1 : r.id = bP.id
      · rw [if_pos h1, hbPseen]
        exact hinv.seen_nodup b hb
      · by_cases h2 : r.id = aP.id
        · rw [if_neg h1, if_pos h2, haPseen]
          exact hinv.seen_nodup a ha
        · rw [if_neg h1, if_neg h2]
          exact hinv.seen_nodup r hr
    · -- seen_sub
      intro q'' hq''
      rcases mem_upd2 hneP q'' hq'' with ⟨r, hr, rfl⟩
      by_cases h1 : r.id = bP.id
      · rw [if_pos h1, hbPseen, hbPinb]
        exact hinv.seen_sub b hb
      · by_cases h2 : r.id = aP.id
        · rw [if_neg h1, if_pos h2, haPseen, haPinb]
          exact hinv.seen_sub a ha
        · rw [if_neg h1, if_neg h2]
          exact hinv.seen_sub r hr
    · -- chan
      intro x hx y hy q' hlk'
      rcases mem_upd2 hneP x hx with ⟨rx, hrx, rfl⟩
      rcases mem_upd2 hneP y hy with ⟨ry, hry, rfl⟩
      rw [hbid2, haid2] at hlk' ⊢
      by_cases hxb : rx.id = b.id
      · -- sender is b
        rw [if_pos hxb] at hlk' ⊢
        rw [hbPout] at hlk'
        rw [hbPrcv, hbid2]
        by_cases hyb : ry.id = b.id
        · rw [if_pos hyb] at hlk'
          rw [hbid2] at hlk'
          exact absurd (alookup_ne_none.mpr (hwf.noSelf b hb))
            (by rw [hlk']; intro hc; cases hc)
        · by_cases hya : ry.id = a.id
          · rw [if_neg hyb, if_pos hya] at hlk' ⊢
            rw [haid2] at hlk'
            rw [haPseen]
            exact hinv.chan b hb a ha q' hlk'
          · rw [if_neg hyb, if_neg hya] at hlk' ⊢
            exact hinv.chan b hb ry hry q' hlk'
      · by_cases hxa : rx.id = a.id
        · -- sender is a (the popped channel)
          rw [if_neg hxb, if_pos hxa] at hlk' ⊢
          rw [haPout] at hlk'
          rw [haPrcv, haid2]
          by_cases hyb : ry.id = b.id
          · rw [if_pos hyb] at hlk' ⊢
            rw [hbid2, alookup_aset_self] at hlk'
            have hq' : q' = q := ((Option.some.injEq _ _).mp hlk').symm
            subst hq'
            rw [hbPseen]
            have hold := hinv.chan a ha b hb _ hab
            constructor
            · intro hmem
              have h1 := hold.1 hmem
              rw [hcntc] at h1
              exact h1
            · intro hmem
              have h2 := hold.2 hmem
              rw [hcntc] at h2
              exact h2
          · by_cases hya : ry.id = a.id
            · rw [if_neg hyb, if_pos hya] at hlk'
              rw [haid2, alookup_aset_ne (Ne.symm hba)] at hlk'
              exact absurd (alookup_ne_none.mpr (hwf.noSelf a ha))
                (by rw [hlk']; intro hc; cases hc)
            · rw [if_neg hyb, if_neg hya] at hlk' ⊢
              rw [alookup_aset_ne hyb] at hlk'
              exact hinv.chan a ha ry hry q' hlk'
        · -- sender untouched
          rw [if_neg hxb, if_neg hxa] at hlk' ⊢
          by_cases hyb : ry.id = b.id
          · rw [if_pos hyb] at hlk' ⊢
            rw [hbid2] at hlk'
            rw [hbPseen]
            exact hinv.chan rx hrx b hb q' hlk'
          · by_cases hya : ry.id = a.id
            · rw [if_neg hyb, if_pos hya] at hlk' ⊢
              rw [haid2] at hlk'
              rw [haPseen]
              exact hinv.chan rx hrx a ha q' hlk'
            · rw [if_neg hyb, if_neg hya] at hlk' ⊢
              exact hinv.chan rx hrx ry hry q' hlk'
  · -- accounted
    unfold accounted
    rw [sum_updServer (fun p => contrib s p + chanSum s p) (updServer sys aP) b bP
      hbmem1 hbid2 hnd1]
    rw [sum_updServer (fun p => contrib s p + chanSum s p) sys a aP ha haid2
      hwf.nodupIds]
    have hCa : contrib s aP = contrib s a := by
      rw [haP]
      rfl
    have hXa : chanSum s aP = chanSum s a -
        preCut s (decide (s ∈ a.receivedSnapshot)) (Message.token n :: q) +
        preCut s (decide (s ∈ a.receivedSnapshot)) q := by
      rw [haP]
      exact chanSum_mk_aset a b.id q (Message.token n :: q) s hab
    have hCb : contrib s bP = contrib s b +
        (if s ∈ b.receivedSnapshot ∧ a.id ∈ seenOf b s then 0 else n) := by
      rw [hbP]
      exact contrib_handleToken b a.id n s (hwf.recvNodup b hb)
        (fun hmem => (hinv.started_rec b hb).mp hmem)
    have hXb : chanSum s bP = chanSum s b := by
      rw [hbP]
      exact chanSum_handleToken b a.id n s
    rw [hCa, hXa, hCb, hXb, preCut_cons_token]
    have hkey : (if s ∈ b.receivedSnapshot ∧ a.id ∈ seenOf b s then (0 : Int) else n) =
        (if q.any (isMarkerFor s) ∨ decide (s ∈ a.receivedSnapshot) = false
         then n else 0) := by
      by_cases hsa : s ∈ a.receivedSnapshot
      · have h1 := (hinv.chan a ha b hb _ hab).1 hsa
        rw [hcntc] at h1
        by_cases hq0 : markerCount s q = 0
        · have hind : a.id ∈ seenOf b s := by
            by_contra hc
            rw [if_neg hc] at h1
            omega
          have hsb : s ∈ b.receivedSnapshot := mem_seen_started hinv hb hind
          rw [if_pos ⟨hsb, hind⟩, if_neg ?_]
          rintro (hc | hc)
          · exact (any_iff_markerCount s q).mp hc hq0
          · rw [decide_eq_true_eq.mpr hsa] at hc
            cases hc
        · have hind : a.id ∉ seenOf b s := by
            intro hc
            rw [if_pos hc] at h1
            omega
          rw [if_neg (fun hand => hind hand.2),
            if_pos (Or.inl ((any_iff_markerCount s q).mpr hq0))]
      · have h2 := (hinv.chan a ha b hb _ hab).2 hsa
        rw [if_neg (fun hand => h2.2 hand.2),
          if_pos (Or.inr (decide_eq_false_iff_not.mpr hsa))]
    rw [hkey]
    ring

theorem deliver_marker_step_preserves (s : Int) (sys : List Server) (a b : Server)
    (sid : Int) (q : List Message) (ha : a ∈ sys) (hb : b ∈ sys)
    (hab : alookup b.id a.outboundLinks = some (Message.marker sid :: q))
    (hwf : WF sys) (hinv : Inv s sys) :
    WF (updServer (updServer sys { a with outboundLinks := aset b.id q a.outboundLinks })
        (HandlePacket b a.id (Message.marker sid)).1) ∧
    Inv s (updServer (updServer sys { a with outboundLinks := aset b.id q a.outboundLinks })
        (HandlePacket b a.id (Message.marker sid)).1) ∧
    accounted s (updServer (updServer sys
        { a with outboundLinks := aset b.id q a.outboundLinks })
        (HandlePacket b a.id (Message.marker sid)).1) = accounted s sys := by
  have hba : b.id ≠ a.id := by
    intro hc
    exact hwf.noSelf a ha
      (hc ▸ List.mem_map.mpr ⟨(b.id, Message.marker sid :: q), alookup_mem hab, rfl⟩)
  have hbknd : (b.outboundLinks.map Prod.fst).Nodup := hwf.outKeysNodup b hb
  set aP : Server := { a with outboundLinks := aset b.id q a.outboundLinks } with haP
  set bP : Server := (HandlePacket b a.id (Message.marker sid)).1 with hbP
  have hbPm : bP = (handleMarker b a.id sid).1 := by
    rw [hbP]
    rfl
  have haid2 : aP.id = a.id := by rw [haP]
  have hbid2 : bP.id = b.id := by
    rw [hbPm]
    exact handleMarker_id b a.id sid
  have hneP : aP.id ≠ bP.id := by
    rw [haid2, hbid2]
    exact Ne.symm hba
  have haPout : aP.outboundLinks = aset b.id q a.outboundLinks := by rw [haP]
  have haPkeys : aP.outboundLinks.map Prod.fst = a.outboundLinks.map Prod.fst := by
    rw [haPout]
    exact aset_keys_of_lookup _ hab
  have haPinb : aP.inboundLinks = a.inboundLinks := by rw [haP]
  have haPrcv : aP.receivedSnapshot = a.receivedSnapshot := by rw [haP]
  have haPmk : aP.inReceivedMarker = a.inReceivedMarker := by rw [haP]
  have haPsn : aP.snapshot = a.snapshot := by rw [haP]
  have haPseen : seenOf aP s = seenOf a s := by
    unfold seenOf
    rw [haPmk]
  have hbPkeys : bP.outboundLinks.map Prod.fst = b.outboundLinks.map Prod.fst := by
    rw [hbPm]
    exact handleMarker_outKeys b a.id sid
  have hbPinb : bP.inboundLinks = b.inboundLinks := by
    rw [hbPm]
    exact handleMarker_inbound b a.id sid
  have hbPrcv : bP.receivedSnapshot =
      (if sid ∈ b.receivedSnapshot then b.receivedSnapshot
       else addIfAbsent sid b.receivedSnapshot) := by
    rw [hbPm]
    exact handleMarker_received b a.id sid
  have hbPrcvmem : ∀ t, t ∈ bP.receivedSnapshot ↔ (t = sid ∨ t ∈ b.receivedSnapshot) := by
    intro t
    rw [hbPrcv]
    by_cases hstt : sid ∈ b.receivedSnapshot
    · rw [if_pos hstt]
      constructor
      · exact Or.inr
      · rintro (rfl | h)
        · exact hstt
        · exact h
    · rw [if_neg hstt]
      exact mem_addIfAbsent sid t b.receivedSnapshot
  have hainb : a.id ∈ b.inboundLinks :=
    (hwf.inOut a ha b hb).mpr (List.mem_map.mpr ⟨_, alookup_mem hab, rfl⟩)
  have hbmem1 : b ∈ updServer sys aP :=
    mem_updServer_of_ne hb (by rw [haid2]; exact hba)
  have hnd1 : ((updServer sys aP).map Server.id).Nodup := by
    rw [ids_updServer]
    exact hwf.nodupIds
  have hwf1 : WF (updServer sys aP) :=
    WF_updServer hwf ha haid2 haPkeys haPinb (by rw [haPrcv]; exact hwf.recvNodup a ha)
  have hbPrnd : bP.receivedSnapshot.Nodup := by
    rw [hbP]
    exact handlePacket_received_nodup b a.id (Message.marker sid) (hwf.recvNodup b hb)
  -- the seen set of bP at sid
  have hbseen_sid : ∀ cur, sid ∈ b.receivedSnapshot →
      ilookup sid b.inReceivedMarker = some cur →
      ilookup sid bP.inReceivedMarker = some (addIfAbsent a.id cur) := by
    intro cur hstt hcur
    rw [hbPm]
    exact handleMarker_seen_started b a.id sid cur hstt hcur
  have hbseen_sid' : sid ∉ b.receivedSnapshot →
      ilookup sid bP.inReceivedMarker = some [a.id] := by
    intro hstt
    rw [hbPm]
    exact handleMarker_seen_not_started b a.id sid hstt
  have hbseen_ne : ∀ t, t ≠ sid →
      ilookup t bP.inReceivedMarker = ilookup t b.inReceivedMarker := by
    intro t ht
    rw [hbPm]
    exact handleMarker_seen_ne b a.id sid t ht
  have hbPsn_started : sid ∈ b.receivedSnapshot → bP.snapshot = b.snapshot := by
    intro hstt
    rw [hbPm]
    exact handleMarker_snapshot_started b a.id sid hstt
  have hbPsn_not : sid ∉ b.receivedSnapshot → bP.snapshot =
      iset sid { id := sid, tokens := [(b.id, b.tokens)], messages := [] } b.snapshot := by
    intro hstt
    rw [hbPm]
    exact handleMarker_snapshot_not_started b a.id sid hstt
  have hbPout : bP.outboundLinks =
      (if sid ∈ b.receivedSnapshot then b.outboundLinks
       else b.outboundLinks.map (fun kv => (kv.1, kv.2 ++ [Message.marker sid]))) := by
    by_cases hstt : sid ∈ b.receivedSnapshot
    · rw [if_pos hstt, hbPm, handleMarker_state_started b a.id sid hstt]
    · rw [if_neg hstt, hbPm, handleMarker_state_not_started b a.id sid hstt]
      show (StartSnapshot b sid).1.outboundLinks = _
      rw [startSnapshot_state b sid hbknd]
  -- membership characterization of the new seen set at s
  have hseen_bP : ∀ x : String, x ∈ seenOf bP s ↔
      (if sid = s then (x = a.id ∨ x ∈ seenOf b s) else x ∈ seenOf b s) := by
    intro x
    by_cases hs : sid = s
    · subst hs
      rw [if_pos rfl]
      by_cases hstt : sid ∈ b.receivedSnapshot
      · rcases Option.isSome_iff_exists.mp ((hinv.started_mk b hb).mp hstt) with ⟨cur, hcur⟩
        unfold seenOf
        rw [hbseen_sid cur hstt hcur, hcur]
        show x ∈ addIfAbsent a.id cur ↔ _
        rw [mem_addIfAbsent]
        rfl
      · unfold seenOf
        rw [hbseen_sid' hstt]
        have hnil : seenOf b sid = [] := seenOf_eq_nil_of_not_started hinv hb hstt
        unfold seenOf at hnil
        rw [hnil]
        show x ∈ [a.id] ↔ _
        simp
    · rw [if_neg hs]
      unfold seenOf
      rw [hbseen_ne s (fun hc => hs hc.symm)]
  refine ⟨WF_updServer hwf1 hbmem1 hbid2 hbPkeys hbPinb hbPrnd, ?_, ?_⟩
  · constructor
    · -- started_rec
      intro q'' hq''
      rcases mem_upd2 hneP q'' hq'' with ⟨r, hr, rfl⟩
      by_cases h1 : r.id = bP.id
      · rw [if_pos h1]
        rw [show (s ∈ bP.receivedSnapshot) = (s = sid ∨ s ∈ b.receivedSnapshot) from
          propext (hbPrcvmem s)]
        by_cases hstt : sid ∈ b.receivedSnapshot
        · rw [hbPsn_started hstt]
          constructor
          · rintro (rfl | h)
            · exact (hinv.started_rec b hb).mp hstt
            · exact (hinv.started_rec b hb).mp h
          · intro h
            exact Or.inr ((hinv.started_rec b hb).mpr h)
        · rw [hbPsn_not hstt]
          by_cases hs : s = sid
          · subst hs
            rw [ilookup_iset_self]
            simp
          · rw [ilookup_iset_ne hs]
            constructor
            · rintro (hc | h)
              · exact absurd hc hs
              · exact (hinv.started_rec b hb).mp h
            · intro h
              exact Or.inr ((hinv.started_rec b hb).mpr h)
      · by_cases h2 : r.id = aP.id
        · rw [if_neg h1, if_pos h2, haPrcv, haPsn]
          exact hinv.started_rec a ha
        · rw [if_neg h1, if_neg h2]
          exact hinv.started_rec r hr
    · -- started_mk
      intro q'' hq''
      rcases mem_upd2 hneP q'' hq'' with ⟨r, hr, rfl⟩
      by_cases h1 : r.id = bP.id
      · rw [if_pos h1]
        rw [show (s ∈ bP.receivedSnapshot) = (s = sid ∨ s ∈ b.receivedSnapshot) from
          propext (hbPrcvmem s)]
        by_cases hs : s = sid
        · subst hs
          constructor
          · intro _
            by_cases hstt : s ∈ b.receivedSnapshot
            · rcases Option.isSome_iff_exists.mp ((hinv.started_mk b hb).mp hstt) with
                ⟨cur, hcur⟩
              rw [hbseen_sid cur hstt hcur]
              rfl
            · rw [hbseen_sid' hstt]
              rfl
          · intro _
            exact Or.inl rfl
        · rw [hbseen_ne s hs]
          constructor
          · rintro (hc | h)
            · exact absurd hc hs
            · exact (hinv.started_mk b hb).mp h
          · intro h
            exact Or.inr ((hinv.started_mk b hb).mpr h)
      · by_cases h2 : r.id = aP.id
        · rw [if_neg h1, if_pos h2, haPrcv, haPmk]
          exact hinv.started_mk a ha
        · rw [if_neg h1, if_neg h2]
          exact hinv.started_mk r hr
    · -- seen_nodup
      intro q'' hq''
      rcases mem_upd2 hneP q'' hq'' with ⟨r, hr, rfl⟩
      by_cases h1 : r.id = bP.id
      · rw [if_pos h1]
        by_cases hs : sid = s
        · subst hs
          by_cases hstt : sid ∈ b.receivedSnapshot
          · rcases Option.isSome_iff_exists.mp ((hinv.started_mk b hb).mp hstt) with
              ⟨cur, hcur⟩
            unfold seenOf
            rw [hbseen_sid cur hstt hcur]
            show (addIfAbsent a.id cur).Nodup
            apply addIfAbsent_nodup
            have := hinv.seen_nodup b hb
            unfold seenOf at this
            rw [hcur] at this
            exact this
          · unfold seenOf
            rw [hbseen_sid' hstt]
            exact List.nodup_singleton a.id
        · unfold seenOf
          rw [hbseen_ne s (fun hc => hs hc.symm)]
          exact hinv.seen_nodup b hb
      · by_cases h2 : r.id = aP.id
        · rw [if_neg h1, if_pos h2, haPseen]
          exact hinv.seen_nodup a ha
        · rw [if_neg h1, if_neg h2]
          exact hinv.seen_nodup r hr
    · -- seen_sub
      intro q'' hq''
      rcases mem_upd2 hneP q'' hq'' with ⟨r, hr, rfl⟩
      by_cases h1 : r.id = bP.id
      · rw [if_pos h1, hbPinb]
        intro x hx
        rw [hseen_bP x] at hx
        by_cases hs : sid = s
        · rw [if_pos hs] at hx
          rcases hx with rfl | hx
          · exact hainb
          · exact hinv.seen_sub b hb x hx
        · rw [if_neg hs] at hx
          exact hinv.seen_sub b hb x hx
      · by_cases h2 : r.id = aP.id
        · rw [if_neg h1, if_pos h2, haPseen, haPinb]
          exact hinv.seen_sub a ha
        · rw [if_neg h1, if_neg h2]
          exact hinv.seen_sub r hr
    · -- chan
      intro x hx y hy q' hlk'
      rcases mem_upd2 hneP x hx with ⟨rx, hrx, rfl⟩
      rcases mem_upd2 hneP y hy with ⟨ry, hry, rfl⟩
      rw [hbid2, haid2] at hlk' ⊢
      by_cases hxb : rx.id = b.id
      · -- sender is b
        rw [if_pos hxb] at hlk' ⊢
        rw [hbPout] at hlk'
        by_cases hstt : sid ∈ b.receivedSnapshot
        · -- b already started sid: outbound unchanged, received for s unchanged
          rw [if_pos hstt] at hlk'
          have hrcv : ∀ t : Prop, (s ∈ bP.receivedSnapshot) ↔ (s ∈ b.receivedSnapshot) := by
            intro _
            rw [hbPrcvmem s]
            constructor
            · rintro (rfl | h)
              · exact hstt
              · exact h
            · exact Or.inr
          rw [show (s ∈ bP.receivedSnapshot) = (s ∈ b.receivedSnapshot) from
            propext (hrcv True), hbid2]
          by_cases hyb : ry.id = b.id
          · rw [if_pos hyb] at hlk'
            rw [hbid2] at hlk'
            exact absurd (alookup_ne_none.mpr (hwf.noSelf b hb))
              (by rw [hlk']; intro hc; cases hc)
          · by_cases hya : ry.id = a.id
            · rw [if_neg hyb, if_pos hya] at hlk' ⊢
              rw [haid2] at hlk'
              rw [haPseen]
              exact hinv.chan b hb a ha q' hlk'
            · rw [if_neg hyb, if_neg hya] at hlk' ⊢
              exact hinv.chan b hb ry hry q' hlk'
        · -- b starts sid now: markers appended on all its channels
          rw [if_neg hstt] at hlk'
          rw [show (s ∈ bP.receivedSnapshot) = (s = sid ∨ s ∈ b.receivedSnapshot) from
            propext (hbPrcvmem s), hbid2]
          by_cases hyb : ry.id = b.id
          · rw [if_pos hyb] at hlk'
            rw [hbid2, alookup_map_append] at hlk'
            rw [alookup_ne_none.mpr (hwf.noSelf b hb)] at hlk'
            cases hlk'
          · by_cases hya : ry.id = a.id
            · rw [if_neg hyb, if_pos hya] at hlk' ⊢
              rw [haid2, alookup_map_append] at hlk'
              rcases halo : alookup a.id b.outboundLinks with _ | q0
              · rw [halo] at hlk'
                cases hlk'
              · rw [halo] at hlk'
                have hq' : q' = q0 ++ [Message.marker sid] := by
                  have h2 : some (q0 ++ [Message.marker sid]) = some q' := hlk'
                  exact ((Option.some.injEq _ _).mp h2).symm
                subst hq'
                rw [haPseen]
                by_cases hs : sid = s
                · subst hs
                  have hold := (hinv.chan b hb a ha q0 halo).2 hstt
                  constructor
                  · intro _
                    rw [markerCount_append_marker, if_pos rfl, hold.1,
                      if_neg hold.2]
                  · rintro hmem
                    exact absurd (Or.inl rfl) hmem
                · have hcnt : markerCount s (q0 ++ [Message.marker sid]) =
                      markerCount s q0 := by
                    rw [markerCount_append_marker, if_neg hs, Nat.add_zero]
                  rw [hcnt]
                  constructor
                  · rintro (hc | hmem)
                    · exact absurd hc.symm hs
                    · exact (hinv.chan b hb a ha q0 halo).1 hmem
                  · intro hmem
                    exact (hinv.chan b hb a ha q0 halo).2
                      (fun hc => hmem (Or.inr hc))
            · rw [if_neg hyb, if_neg hya] at hlk' ⊢
              rw [alookup_map_append] at hlk'
              rcases halo : alookup ry.id b.outboundLinks with _ | q0
              · rw [halo] at hlk'
                cases hlk'
              · rw [halo] at hlk'
                have hq' : q' = q0 ++ [Message.marker sid] := by
                  have h2 : some (q0 ++ [Message.marker sid]) = some q' := hlk'
                  exact ((Option.some.injEq _ _).mp h2).symm
                subst hq'
                by_cases hs : sid = s
                · subst hs
                  have hold := (hinv.chan b hb ry hry q0 halo).2 hstt
                  constructor
                  · intro _
                    rw [markerCount_append_marker, if_pos rfl, hold.1,
                      if_neg hold.2]
                  · rintro hmem
                    exact absurd (Or.inl rfl) hmem
                · have hcnt : markerCount s (q0 ++ [Message.marker sid]) =
                      markerCount s q0 := by
                    rw [markerCount_append_marker, if_neg hs, Nat.add_zero]
                  rw [hcnt]
                  constructor
                  · rintro (hc | hmem)
                    · exact absurd hc.symm hs
                    · exact (hinv.chan b hb ry hry q0 halo).1 hmem
                  · intro hmem
                    exact (hinv.chan b hb ry hry q0 halo).2
                      (fun hc => hmem (Or.inr hc))
      · by_cases hxa : rx.id = a.id
        · -- sender is a: the popped channel into b, or an unchanged channel
          rw [if_neg hxb, if_pos hxa] at hlk' ⊢
          rw [haPout] at hlk'
          rw [haPrcv, haid2]
          by_cases hyb : ry.id = b.id
          · -- the delivered channel a→b
            rw [if_pos hyb] at hlk' ⊢
            rw [hbid2, alookup_aset_self] at hlk'
            have hq' : q' = q := ((Option.some.injEq _ _).mp hlk').symm
            rw [hq']
            have hold := hinv.chan a ha b hb _ hab
            by_cases hs : sid = s
            · subst hs
              have hcnt : markerCount sid (Message.marker sid :: q) =
                  1 + markerCount sid q := by
                rw [markerCount_cons]
                simp [isMarkerFor]
              have hsa : sid ∈ a.receivedSnapshot := by
                by_contra hc
                have h2 := (hold.2 hc).1
                rw [hcnt] at h2
                omega
              have h1 := hold.1 hsa
              rw [hcnt] at h1
              have hnotseen : a.id ∉ seenOf b sid := by
                intro hc
                rw [if_pos hc] at h1
                omega
              have hq0 : markerCount sid q = 0 := by
                rw [if_neg hnotseen] at h1
                omega
              have hmemnew : a.id ∈ seenOf bP sid := by
                rw [hseen_bP a.id, if_pos rfl]
                exact Or.inl rfl
              constructor
              · intro _
                rw [hq0, if_pos hmemnew]
              · intro hmem
                exact absurd hsa hmem
            · have hcnt : markerCount s (Message.marker sid :: q) = markerCount s q := by
                rw [markerCount_cons]
                simp [isMarkerFor, hs]
              have hseen' : ∀ z : String, z ∈ seenOf bP s ↔ z ∈ seenOf b s := by
                intro z
                rw [hseen_bP z, if_neg hs]
              constructor
              · intro hmem
                have h1 := hold.1 hmem
                rw [hcnt] at h1
                by_cases hmems : a.id ∈ seenOf b s
                · rw [if_pos ((hseen' a.id).mpr hmems)]
                  rw [if_pos hmems] at h1
                  exact h1
                · rw [if_neg (fun hc => hmems ((hseen' a.id).mp hc))]
                  rw [if_neg hmems] at h1
                  exact h1
              · intro hmem
                have h2 := hold.2 hmem
                rw [hcnt] at h2
                exact ⟨h2.1, fun hc => h2.2 ((hseen' a.id).mp hc)⟩
          · by_cases hya : ry.id = a.id
            · rw [if_neg hyb, if_pos hya] at hlk'
              rw [haid2, alookup_aset_ne (Ne.symm hba)] at hlk'
              exact absurd (alookup_ne_none.mpr (hwf.noSelf a ha))
                (by rw [hlk']; intro hc; cases hc)
            · rw [if_neg hyb, if_neg hya] at hlk' ⊢
              rw [alookup_aset_ne hyb] at hlk'
              exact hinv.chan a ha ry hry q' hlk'
        · -- sender untouched
          rw [if_neg hxb, if_neg hxa] at hlk' ⊢
          by_cases hyb : ry.id = b.id
          · rw [if_pos hyb] at hlk' ⊢
            rw [hbid2] at hlk'
            have hseen' : ∀ z : String, z ≠ a.id →
                (z ∈ seenOf bP s ↔ z ∈ seenOf b s) := by
              intro z hz
              rw [hseen_bP z]
              by_cases hs : sid = s
              · rw [if_pos hs]
                constructor
                · rintro (hc | h)
                  · exact absurd hc hz
                  · exact h
                · exact Or.inr
              · rw [if_neg hs]
            have hold := hinv.chan rx hrx b hb q' hlk'
            constructor
            · intro hmem
              have h1 := hold.1 hmem
              by_cases hmems : rx.id ∈ seenOf b s
              · rw [if_pos ((hseen' rx.id hxa).mpr hmems)]
                rw [if_pos hmems] at h1
                exact h1
              · rw [if_neg (fun hc => hmems ((hseen' rx.id hxa).mp hc))]
                rw [if_neg hmems] at h1
                exact h1
            · intro hmem
              have h2 := hold.2 hmem
              exact ⟨h2.1, fun hc => h2.2 ((hseen' rx.id hxa).mp hc)⟩
          · by_cases hya : ry.id = a.id
            · rw [if_neg hyb, if_pos hya] at hlk' ⊢
              rw [haid2] at hlk'
              rw [haPseen]
              exact hinv.chan rx hrx a ha q' hlk'
            · rw [if_neg hyb, if_neg hya] at hlk' ⊢
              exact hinv.chan rx hrx ry hry q' hlk'
  · -- accounted
    unfold accounted
    rw [sum_updServer (fun p => contrib s p + chanSum s p) (updServer sys aP) b bP
      hbmem1 hbid2 hnd1]
    rw [sum_updServer (fun p => contrib s p + chanSum s p) sys a aP ha haid2
      hwf.nodupIds]
    have hCa : contrib s aP = contrib s a := by
      rw [haP]
      rfl
    have hXa : chanSum s aP = chanSum s a -
        preCut s (decide (s ∈ a.receivedSnapshot)) (Message.marker sid :: q) +
        preCut s (decide (s ∈ a.receivedSnapshot)) q := by
      rw [haP]
      exact chanSum_mk_aset a b.id q (Message.marker sid :: q) s hab
    have hXch : preCut s (decide (s ∈ a.receivedSnapshot)) (Message.marker sid :: q) =
        preCut s (decide (s ∈ a.receivedSnapshot)) q := by
      by_cases hs : sid = s
      · subst hs
        have hold := hinv.chan a ha b hb _ hab
        have hcnt : markerCount sid (Message.marker sid :: q) =
            1 + markerCount sid q := by
          rw [markerCount_cons]
          simp [isMarkerFor]
        have hsa : sid ∈ a.receivedSnapshot := by
          by_contra hc
          have h2 := (hold.2 hc).1
          rw [hcnt] at h2
          omega
        have h1 := hold.1 hsa
        rw [hcnt] at h1
        have hq0 : markerCount sid q = 0 := by
          by_cases hmems : a.id ∈ seenOf b sid
          · rw [if_pos hmems] at h1
            omega
          · rw [if_neg hmems] at h1
            omega
        rw [preCut_cons_marker_self, preCut_no_marker sid _ q hq0,
          decide_eq_true_eq.mpr hsa]
        rfl
      · exact preCut_cons_marker_ne s sid hs _ q
    have hFb : contrib s bP + chanSum s bP = contrib s b + chanSum s b := by
      by_cases hstt : sid ∈ b.receivedSnapshot
      · rw [hbPm, contrib_handleMarker_started b a.id sid s hstt,
          chanSum_handleMarker_started b a.id sid s hstt]
      · by_cases hs : sid = s
        · subst hs
          rw [hbPm, contrib_handleMarker_not_started_self b a.id sid hstt hbknd,
            chanSum_handleMarker_not_started_self b a.id sid hstt
              (chan_count_zero_of_not_started hwf hinv hb hstt) hbknd]
          have hc0 : contrib sid b = b.tokens := by
            unfold contrib
            rw [if_neg hstt]
          rw [hc0]
        · rw [hbPm, contrib_handleMarker_not_started_ne b a.id sid s hstt hs hbknd,
            chanSum_handleMarker_not_started_ne b a.id sid s hstt hs hbknd]
    rw [hCa, hXa, hXch]
    have : contrib s bP + chanSum s bP - (contrib s b + chanSum s b) = 0 := by
      rw [hFb]
      ring
    omega

/-! ## C1: conservation across the whole run -/

theorem step_preserves (s : Int) {sys sys' : List Server} (hst : Step sys sys')
    (hwf : WF sys) (hinv : Inv s sys) :
    WF sys' ∧ Inv s sys' ∧ accounted s sys' = accounted s sys := by
  cases hst with
  | deliver a b msg q ha hb hab =>
      cases msg with
      | marker sid => exact deliver_marker_step_preserves s sys a b sid q ha hb hab hwf hinv
      | token n => exact deliver_token_step_preserves s sys a b n q ha hb hab hwf hinv
  | send a s' n dest ha hok => exact send_step_preserves s sys a s' n dest ha hok hwf hinv
  | start a sid ha hg => exact start_step_preserves s sid sys a ha hg hwf hinv

theorem reaches_preserves (s : Int) {sys sys' : List Server} (h : Reaches sys sys')
    (hwf : WF sys) (hinv : Inv s sys) :
    WF sys' ∧ Inv s sys' ∧ accounted s sys' = accounted s sys := by
  have h' : Relation.ReflTransGen Step sys sys' := h
  clear h
  induction h' with
  | refl => exact ⟨hwf, hinv, rfl⟩
  | tail _ hstep ih =>
      obtain ⟨hw, hi, he⟩ := ih
      obtain ⟨hw', hi', he'⟩ := step_preserves s hstep hw hi
      exact ⟨hw', hi', he'.trans he⟩

theorem Inv_of_clean {s : Int} {sys : List Server} (hc : CleanFor s sys) : Inv s sys := by
  constructor
  · intro p hp
    obtain ⟨h1, h2, _, _⟩ := hc p hp
    simp [h1, h2]
  · intro p hp
    obtain ⟨h1, _, h3, _⟩ := hc p hp
    simp [h1, h3]
  · intro p hp
    obtain ⟨_, _, h3, _⟩ := hc p hp
    unfold seenOf
    rw [h3]
    exact List.nodup_nil
  · intro p hp x hx
    obtain ⟨_, _, h3, _⟩ := hc p hp
    unfold seenOf at hx
    rw [h3] at hx
    cases hx
  · intro a ha b hb q hq
    obtain ⟨h1a, _, _, h4a⟩ := hc a ha
    obtain ⟨_, _, h3b, _⟩ := hc b hb
    refine ⟨fun hs => absurd hs h1a, fun _ => ⟨h4a (b.id, q) ?_, ?_⟩⟩
    · exact alookup_mem hq
    · unfold seenOf
      rw [h3b]
      simp

theorem accounted_of_clean {s : Int} {sys : List Server} (hc : CleanFor s sys) :
    accounted s sys = totalTokens sys := by
  unfold accounted totalTokens
  refine congrArg List.sum (List.map_congr_left ?_)
  intro p hp
  obtain ⟨h1, _, _, h4⟩ := hc p hp
  have hcon : contrib s p = p.tokens := by
    unfold contrib
    rw [if_neg h1]
  have hch : chanSum s p = queueSum p := by
    unfold chanSum queueSum
    refine congrArg List.sum (List.map_congr_left ?_)
    intro kv hkv
    rw [decide_eq_false h1, preCut_no_marker s false kv.2 (h4 kv hkv)]
    simp
  rw [hcon, hch]

theorem mem_of_nodup_subset_length {l L : List String} (hl : l.Nodup)
    (hsub : ∀ x ∈ l, x ∈ L) (hlen : L.length ≤ l.length) :
    ∀ x ∈ L, x ∈ l := by
  intro x hx
  have hsubF : l.toFinset ⊆ L.toFinset := fun y hy =>
    List.mem_toFinset.mpr (hsub y (List.mem_toFinset.mp hy))
  have hcard : L.toFinset.card ≤ l.toFinset.card := by
    have hle : L.toFinset.card ≤ L.length := L.toFinset_card_le
    have heq : l.toFinset.card = l.length := List.toFinset_card_of_nodup hl
    omega
  have heqF : l.toFinset = L.toFinset := Finset.eq_of_subset_of_card_le hsubF hcard
  have hxF : x ∈ l.toFinset := by
    rw [heqF]
    exact List.mem_toFinset.mpr hx
  exact List.mem_toFinset.mp hxF

theorem accounted_of_done {s : Int} {sys : List Server} (hwf : WF sys) (hinv : Inv s sys)
    (hdone : ∀ p ∈ sys, s ∈ p.receivedSnapshot ∧
      (seenOf p s).length = p.inboundLinks.length) :
    accounted s sys = (sys.map (fun p => recContrib s p)).sum := by
  unfold accounted
  refine congrArg List.sum (List.map_congr_left ?_)
  intro p hp
  have hcon : contrib s p = recContrib s p := by
    unfold contrib
    rw [if_pos (hdone p hp).1]
  have hch : chanSum s p = 0 := by
    unfold chanSum
    have hz : ∀ kv ∈ p.outboundLinks,
        preCut s (decide (s ∈ p.receivedSnapshot)) kv.2 = 0 := by
      intro kv hkv
      obtain ⟨t, ht, htid⟩ := hwf.closed p hp kv.1 (List.mem_map.mpr ⟨kv, hkv, rfl⟩)
      have hkvmem : (kv.1, kv.2) ∈ p.outboundLinks := by
        cases kv
        exact hkv
      have hlk : alookup t.id p.outboundLinks = some kv.2 := by
        rw [htid]
        exact alookup_of_mem_nodup (hwf.outKeysNodup p hp) hkvmem
      have hpin : p.id ∈ t.inboundLinks := by
        refine (hwf.inOut p hp t ht).mpr ?_
        rw [htid]
        exact List.mem_map.mpr ⟨kv, hkv, rfl⟩
      have hseen : p.id ∈ seenOf t s :=
        mem_of_nodup_subset_length (hinv.seen_nodup t ht) (hinv.seen_sub t ht)
          (le_of_eq (hdone t ht).2.symm) p.id hpin
      have hchan := (hinv.chan p hp t ht kv.2 hlk).1 (hdone p hp).1
      rw [if_pos hseen] at hchan
      have hmc : markerCount s kv.2 = 0 := by omega
      rw [decide_eq_true (hdone p hp).1, preCut_no_marker s true kv.2 hmc]
      simp
    calc (p.outboundLinks.map fun kv =>
            preCut s (decide (s ∈ p.receivedSnapshot)) kv.2).sum
        = (p.outboundLinks.map fun _ => (0 : Int)).sum :=
          congrArg List.sum (List.map_congr_left hz)
      _ = 0 := by simp
  rw [hcon, hch]
  ring

/-- **C1.** Closed well-formed topology, no external resource injection:
starting from a state in which no process has begun snapshot `s` and no
marker for `s` is in flight, in any reachable state where every process has
completed `s` (started it and observed markers on all of its inbound
channels), the sum over all processes of the recorded `localResourceCount`
plus the token payloads of the captured messages in their records equals the
total resource count of the initial state (tokens held plus tokens already in
flight). -/
theorem snapshot_conservation (s : Int) (init fin : List Server)
    (hwf : WF init) (hclean : CleanFor s init) (hreach : Reaches init fin)
    (hdone : ∀ p ∈ fin, s ∈ p.receivedSnapshot ∧
      (seenOf p s).length = p.inboundLinks.length) :
    (fin.map (fun p => recContrib s p)).sum = totalTokens init := by
  obtain ⟨hwf', hinv', hacc⟩ := reaches_preserves s hreach hwf (Inv_of_clean hclean)
  rw [← accounted_of_done hwf' hinv' hdone, hacc, accounted_of_clean hclean]

/-- Witness for C1: in the concrete two-server ring, `a` starts snapshot 0,
its marker reaches `b`, `b`'s marker reaches `a`; both records together
account for the initial 8 tokens. -/
theorem snapshot_conservation_witness :
    WF sysW0 ∧ CleanFor 0 sysW0 ∧ Reaches sysW0 sysW3 ∧
      (∀ p ∈ sysW3, 0 ∈ p.receivedSnapshot ∧
        (seenOf p 0).length = p.inboundLinks.length) ∧
      (sysW3.map (fun p => recContrib 0 p)).sum = totalTokens sysW0 := by
  have hwf : WF sysW0 := by
    refine ⟨by decide, by decide, by decide, by decide, by decide, by decide⟩
  have hclean : CleanFor 0 sysW0 := by
    unfold CleanFor
    decide
  have h1 : Step sysW0 sysW1 := Step.start sysW0 serverWA 0 (by decide) (by decide)
  have h2 : Step sysW1 sysW2 :=
    Step.deliver sysW1 serverWA1 serverWB (Message.marker 0) [] (by decide) (by decide)
      (by decide)
  have h3 : Step sysW2 sysW3 :=
    Step.deliver sysW2 serverWB1 serverWA2 (Message.marker 0) [] (by decide) (by decide)
      (by decide)
  have hreach : Reaches sysW0 sysW3 :=
    Relation.ReflTransGen.head h1 (Relation.ReflTransGen.head h2
      (Relation.ReflTransGen.head h3 Relation.ReflTransGen.refl))
  have hdone : ∀ p ∈ sysW3, 0 ∈ p.receivedSnapshot ∧
      (seenOf p 0).length = p.inboundLinks.length := by decide
  exact ⟨hwf, hclean, hreach, hdone,
    snapshot_conservation 0 sysW0 sysW3 hwf hclean hreach hdone⟩

end ChandyLamport
